import Mathlib

/-!
# Dshot driver of the H101_dual firmware (`src/drv_dshot.c`)

A shallow embedding of the driver: the frame encoder `make_packet`, the
bit-bang transmitter `bitbang_data`, the throttle mapper `pwm_set` and the
beep sequencer `motorbeep`, followed by theorems about them.

Conventions of the embedding

* `uint8_t`, `uint16_t` and `unsigned long` (32 bits on the target) are natural
  numbers, reduced `% 256`, `% 65536`, `% 2 ^ 32` where the C code stores them.
* `motor_data` is a `List Nat`; the driver's array has 64 slots.
* `float` is IEEE-754 binary32, given by its three fields (`F32`); the product
  is rounded to nearest, ties to even, with gradual underflow. The conversion
  `(uint16_t)` truncates; where C leaves it undefined (NaN, values outside
  `0 .. 65535`) it is given the value 0.
* Writes to the GPIO registers and `__NOP()` are recorded, in program order,
  as a list of `Event`s returned next to the new state.
* The externals `failsafe`, `onground` and `gettime()` are inputs of each call
  (`Env`); the constants `FORWARD` and `REVERSE` of `defines.h` and the
  preprocessor switches are parameters (`Config`).
-/

namespace DShot

/-! ## Compile-time configuration -/

/-- The constant `IDLE_OFFSET`, added to the throttle (`#define IDLE_OFFSET 40`). -/
def IDLE_OFFSET : Nat := 40

/-- The command `DSHOT_CMD_BEEP1` (`#define DSHOT_CMD_BEEP1 1`). -/
def DSHOT_CMD_BEEP1 : Nat := 1
/-- The command `DSHOT_CMD_BEEP2` (`#define DSHOT_CMD_BEEP2 2`). -/
def DSHOT_CMD_BEEP2 : Nat := 2
/-- The command `DSHOT_CMD_BEEP3` (`#define DSHOT_CMD_BEEP3 3`). -/
def DSHOT_CMD_BEEP3 : Nat := 3
/-- The command `DSHOT_CMD_BEEP4` (`#define DSHOT_CMD_BEEP4 4`). -/
def DSHOT_CMD_BEEP4 : Nat := 4

/-- The constant `MOTOR_BEEPS_TIMEOUT` (`#define MOTOR_BEEPS_TIMEOUT 5e6`), in microseconds. -/
def MOTOR_BEEPS_TIMEOUT : Nat := 5000000

/-- The build configuration: whether `BIDIRECTIONAL` is defined, which of
`DSHOT150` and `DSHOT300` is (exactly one must be), and the direction constants
`FORWARD` and `REVERSE` of `defines.h`, which `pwmdir` is compared with and
whose numeric values `drv_dshot.c` does not fix. The source as it stands has
`BIDIRECTIONAL` and `DSHOT300`. -/
structure Config where
  BIDIRECTIONAL : Bool
  DSHOT150 : Bool
  FORWARD : Int
  REVERSE : Int
deriving DecidableEq

/-! ## The C type `float` -/

/-- An IEEE-754 binary32 value (the C type `float`), by its fields: sign bit,
8-bit biased exponent, 23-bit fraction. -/
structure F32 where
  sign : Bool
  exponent : Fin 256
  mantissa : Fin 8388608
deriving DecidableEq

namespace F32

/-- Not-a-number: exponent field all ones, fraction non-zero. -/
def isNaN (a : F32) : Bool := a.exponent.val = 255 && a.mantissa.val ≠ 0

/-- Infinity: exponent field all ones, fraction zero. -/
def isInf (a : F32) : Bool := a.exponent.val = 255 && a.mantissa.val = 0

/-- Plus or minus zero. -/
def isZero (a : F32) : Bool := a.exponent.val = 0 && a.mantissa.val = 0

/-- The low 31 bits of the encoding; on non-NaN values it orders magnitudes. -/
def magnitude (a : F32) : Nat := a.exponent.val * 8388608 + a.mantissa.val

/-- A signed integer that orders non-NaN values as IEEE comparison does
(both zeros get 0). -/
def key (a : F32) : Int := if a.sign then - (a.magnitude : Int) else (a.magnitude : Int)

/-- The C comparison `a < b`: false when either side is NaN. -/
def lt (a b : F32) : Bool := !a.isNaN && !b.isNaN && decide (a.key < b.key)

/-- The C comparison `a <= b`: false when either side is NaN. -/
def le (a b : F32) : Bool := !a.isNaN && !b.isNaN && decide (a.key ≤ b.key)

/-- The integer significand: a finite value is `± significand * 2 ^ (scale - 150)`. -/
def significand (a : F32) : Nat :=
  if a.exponent.val = 0 then a.mantissa.val else 8388608 + a.mantissa.val

/-- The exponent of the unit in the last place, biased by 150: a finite value is
`± significand * 2 ^ (scale - 150)`. -/
def scale (a : F32) : Nat := if a.exponent.val = 0 then 1 else a.exponent.val

/-- The rational number a finite value stands for. -/
def toRat (a : F32) : ℚ :=
  (if a.sign then -1 else 1) * (a.significand : ℚ) * (2 : ℚ) ^ ((a.scale : Int) - 150)

/-- The value with the given sign whose low 31 bits are `bits`. -/
def ofBits (sign : Bool) (bits : Nat) : F32 :=
  ⟨sign, ⟨bits / 8388608 % 256, Nat.mod_lt _ (by decide)⟩, ⟨bits % 8388608, Nat.mod_lt _ (by decide)⟩⟩

/-- Signed zero. -/
def zero (sign : Bool) : F32 := ofBits sign 0

/-- Signed infinity. -/
def inf (sign : Bool) : F32 := ofBits sign 0x7F800000

/-- The default quiet NaN. -/
def nan : F32 := ofBits false 0x7FC00000

/-- Round `n / 2 ^ s` to the nearest integer, ties to even. -/
def roundNE (n s : Nat) : Nat :=
  let q := n / 2 ^ s
  let r := n % 2 ^ s
  if 2 * r > 2 ^ s ∨ (2 * r = 2 ^ s ∧ q % 2 = 1) then q + 1 else q

/-- The number of binary digits of `n`, computed with `fuel` halvings at most. -/
def bitLengthAux : Nat → Nat → Nat
  | 0, _ => 0
  | fuel + 1, n => if n = 0 then 0 else bitLengthAux fuel (n / 2) + 1

/-- The number of binary digits of `n` (0 for 0). -/
def bitLength (n : Nat) : Nat := bitLengthAux n n

/-- The finite value `± n * 2 ^ (e - 300)`, `n ≠ 0`, rounded to binary32 (to nearest,
ties to even; overflow gives infinity, results below the normal range are
subnormal). The leading bit of the value has biased exponent `e + len - 174`; a normal
result keeps 24 bits of `n`, a subnormal one the bits down to `2 ^ (-149)`. -/
def round (sign : Bool) (n e : Nat) : F32 :=
  let len := bitLength n
  if e + len ≥ 175 then
    let r := if len ≥ 24 then roundNE n (len - 24) else n <<< (24 - len)
    let bits := (e + len - 175) * 8388608 + r
    if bits ≥ 0x7F800000 then inf sign else ofBits sign bits
  else
    let r := if e ≤ 151 then roundNE n (151 - e) else n <<< (e - 151)
    ofBits sign r

/-- The C product `a * b` of two `float`s (round to nearest, ties to even). -/
def mul (a b : F32) : F32 :=
  let s := a.sign != b.sign
  if a.isNaN || b.isNaN then nan
  else if a.isInf || b.isInf then (if a.isZero || b.isZero then nan else inf s)
  else if a.isZero || b.isZero then zero s
  else round s (a.significand * b.significand) (a.scale + b.scale)

/-- The conversion `(float) n` of a non-negative `int`. -/
def ofNat (n : Nat) : F32 := if n = 0 then zero false else round false n 300

/-- The conversion `(uint16_t) a`: truncation toward zero. C leaves the result
undefined when `a` is NaN or the truncated value is not in `0 .. 65535`; those
cases are given the value 0 here. -/
def toUInt16 (a : F32) : Nat :=
  if a.isNaN || a.isInf then 0
  else if a.sign then 0
  else
    let t := (a.significand * 2 ^ a.scale) / 2 ^ 150
    if t ≥ 65536 then 0 else t

end F32

/-! ## Output events -/

/-- GPIO ports the driver writes to. -/
inductive Port
  | GPIOA
  | GPIOB
  | GPIOF
deriving DecidableEq

/-- What the bit-bang loop does to the outside world, in program order:
`__NOP()`, `gpioset( port, GPIO_PIN_pin )` (`port->BOR = pin`) and
`gpioreset( port, GPIO_PIN_pin )` (`port->BCR = pin`). -/
inductive Event
  | nop
  | gpioset (port : Port) (pin : Nat)
  | gpioreset (port : Port) (pin : Nat)
deriving DecidableEq

/-! ## Frame encoder: `make_packet` -/

/-- The checksum loop of `make_packet`:
`for ( i = 0; i < 3; ++i ) { csum ^= csum_data; csum_data >>= 4; }`,
with `k` iterations left. -/
def csum_loop : Nat → Nat → Nat → Nat
  | 0, csum, _ => csum
  | k + 1, csum, csum_data => csum_loop k (csum ^^^ csum_data) (csum_data >>> 4)

/-- The 16-bit frame `make_packet` computes, i.e. the value of `packet` when the pulse
loop starts. -/
def make_packet_frame (value : Nat) (telemetry : Bool) : Nat :=
  let packet := ((value <<< 1) ||| (if telemetry then 1 else 0)) % 65536
  let csum := csum_loop 3 0 packet
  let csum := csum &&& 0xf
  ((packet <<< 4) ||| csum) % 65536

/-- The statement `motor_data[ idx ] |= mask` on an array of `uint8_t`. -/
def or_slot (motor_data : List Nat) (idx mask : Nat) : List Nat :=
  motor_data.set idx ((motor_data.getD idx 0 ||| mask) % 256)

/-- The pulse loop of `make_packet`,
`for ( i = 0; i < 16; ++i ) { if ( packet & 0x8000 ) ... else ...; packet <<= 1; }`,
with `k` iterations left, loop counter `i` and current `packet`. -/
def pulse_loop (number : Nat) : Nat → Nat → Nat → List Nat → List Nat
  | 0, _, _, motor_data => motor_data
  | k + 1, i, packet, motor_data =>
    let motor_data :=
      if packet &&& 0x8000 ≠ 0 then
        let m := or_slot motor_data (i * 4 + 0) (1 <<< number)
        let m := or_slot m (i * 4 + 1) (1 <<< number)
        let m := or_slot m (i * 4 + 2) (1 <<< number)
        or_slot m (i * 4 + 3) (0 <<< number)
      else
        let m := or_slot motor_data (i * 4 + 0) (1 <<< number)
        let m := or_slot m (i * 4 + 1) (0 <<< number)
        let m := or_slot m (i * 4 + 2) (0 <<< number)
        or_slot m (i * 4 + 3) (0 <<< number)
    pulse_loop number k (i + 1) ((packet <<< 1) % 65536) motor_data

/-- The function `make_packet( number, value, telemetry )`, as a function of `motor_data`. -/
def make_packet (number value : Nat) (telemetry : Bool) (motor_data : List Nat) : List Nat :=
  pulse_loop number 16 0 (make_packet_frame value telemetry) motor_data

/-! ## Bit-bang transmitter: `bitbang_data` -/

/-- One `if ( data & mask ) { __NOP(); gpioset } else { __NOP(); __NOP(); gpioreset }`
block of `bitbang_data`, on port `GPIOA`. -/
def pin_block (data mask pin : Nat) : List Event :=
  if data &&& mask ≠ 0 then
    [Event.nop, Event.gpioset Port.GPIOA pin]
  else
    [Event.nop, Event.nop, Event.gpioreset Port.GPIOA pin]

/-- The trailing `__NOP()`s of a slot: 7 with `DSHOT300`, 47 with `DSHOT150`. -/
def slot_delay (dshot150 : Bool) : List Event :=
  List.replicate (if dshot150 then 47 else 7) Event.nop

/-- The events of one iteration of the loop of `bitbang_data`, for slot value `data`. -/
def slot_events (dshot150 : Bool) (data : Nat) : List Event :=
  pin_block data 0x01 1 ++ pin_block data 0x02 3 ++ pin_block data 0x04 10 ++
    pin_block data 0x08 8 ++ slot_delay dshot150

/-- The loop of `bitbang_data`, `for ( i = 0; i < 64; ++i )`, with `k` iterations left:
reads `motor_data[ i ]`, clears it, and drives the four pins. -/
def bitbang_loop (dshot150 : Bool) : Nat → Nat → List Nat → List Nat × List Event
  | 0, _, motor_data => (motor_data, [])
  | k + 1, i, motor_data =>
    let data := motor_data.getD i 0
    let motor_data := motor_data.set i 0
    let rest := bitbang_loop dshot150 k (i + 1) motor_data
    (rest.1, slot_events dshot150 data ++ rest.2)

/-- The function `bitbang_data()`: the new `motor_data` and the events produced. -/
def bitbang_data (cfg : Config) (motor_data : List Nat) : List Nat × List Event :=
  bitbang_loop cfg.DSHOT150 64 0 motor_data

/-! ## Throttle mapper: `pwm_set` -/

/-- The file-scope variables of `drv_dshot.c`, with the function-local static
`motor_beep_time` of `motorbeep`. -/
structure Globals where
  pwmdir : Int
  pwm_failsafe_time : Nat
  motor_data : List Nat
  motor_beep_time : Nat
deriving DecidableEq

/-- The externals a call reads: the flags `failsafe` and `onground`, and the
value `gettime()` returns during the call (each function calls it at most once). -/
structure Env where
  failsafe : Int
  onground : Int
  gettime : Nat
deriving DecidableEq

/-- The constant `0.999f`, bit pattern `0x3F7FBE77`; the `double` constant `0.999`
stored into a `float` gives the same value. -/
def f0_999 : F32 := F32.ofBits false 0x3F7FBE77

/-- The two clamping statements at the head of `pwm_set`:
`if ( pwm < 0.0f ) pwm = 0.0; if ( pwm > 0.999f ) pwm = 0.999;`. -/
def pwm_clamp (pwm : F32) : F32 :=
  let pwm := if F32.lt pwm (F32.zero false) then F32.zero false else pwm
  if F32.lt f0_999 pwm then f0_999 else pwm

/-- The value of `value` after the `#ifdef BIDIRECTIONAL ... #else ... #endif` block of
`pwm_set`, for the clamped `pwm`. -/
def pwm_map (cfg : Config) (pwmdir : Int) (pwm : F32) : Nat :=
  if cfg.BIDIRECTIONAL then
    if pwmdir = cfg.FORWARD then
      (48 + IDLE_OFFSET + F32.toUInt16 (F32.mul pwm (F32.ofNat (1000 - IDLE_OFFSET)))) % 65536
    else if pwmdir = cfg.REVERSE then
      (1048 + IDLE_OFFSET + F32.toUInt16 (F32.mul pwm (F32.ofNat (1000 - IDLE_OFFSET)))) % 65536
    else
      0
  else
    (48 + IDLE_OFFSET * 2 + F32.toUInt16 (F32.mul pwm (F32.ofNat (2001 - IDLE_OFFSET * 2)))) % 65536

/-- The difference `gettime() - since` of two `unsigned long`s (32 bits). -/
def elapsed (now since : Nat) : Nat := (now + 4294967296 - since % 4294967296) % 4294967296

/-- The value `pwm_set` passes to `make_packet`: the mapped throttle, overridden by
`onground` and by the failsafe cutoff. -/
def pwm_set_value (cfg : Config) (env : Env) (pwm : F32) (g : Globals) : Nat :=
  let value := pwm_map cfg g.pwmdir (pwm_clamp pwm)
  let value := if env.onground ≠ 0 then 0 else value
  if env.failsafe ≠ 0 then
    if g.pwm_failsafe_time = 0 then value
    else if elapsed env.gettime g.pwm_failsafe_time > 100000 then 0 else value
  else value

/-- The value of `pwm_failsafe_time` when `pwm_set` returns. -/
def pwm_set_failsafe_time (env : Env) (g : Globals) : Nat :=
  if env.failsafe ≠ 0 then
    if g.pwm_failsafe_time = 0 then env.gettime % 4294967296 else g.pwm_failsafe_time
  else 0

/-- The function `pwm_set( number, pwm )`: the new globals and the events produced. -/
def pwm_set (cfg : Config) (env : Env) (number : Nat) (pwm : F32) (g : Globals) :
    Globals × List Event :=
  let value := pwm_set_value cfg env pwm g
  let pwm_failsafe_time := pwm_set_failsafe_time env g
  let motor_data := make_packet number value false g.motor_data
  if number = 3 then
    let r := bitbang_data cfg motor_data
    ({ g with pwm_failsafe_time := pwm_failsafe_time, motor_data := r.1 }, r.2)
  else
    ({ g with pwm_failsafe_time := pwm_failsafe_time, motor_data := motor_data }, [])

/-- The function `pwm_dir( dir )`. -/
def pwm_dir (dir : Int) (g : Globals) : Globals := { g with pwmdir := dir }

/-- The last statement of `pwm_init`, `pwm_failsafe_time = gettime() - 100000;`; the
GPIO set-up before it does not touch the globals. -/
def pwm_init (env : Env) (g : Globals) : Globals :=
  { g with pwm_failsafe_time := elapsed env.gettime 100000 }

/-- The globals as the C initialisers leave them. -/
def initial_globals : Globals :=
  { pwmdir := 0, pwm_failsafe_time := 1, motor_data := List.replicate 64 0, motor_beep_time := 0 }

/-! ## Beep sequencer: `motorbeep` -/

/-- The beep command `motorbeep` selects for `delta_time` once the timeout has passed;
0 stands for no beep. -/
def beep_command (delta_time : Nat) : Nat :=
  if delta_time % 2000000 < 250000 then DSHOT_CMD_BEEP1
  else if delta_time % 2000000 < 500000 then DSHOT_CMD_BEEP3
  else if delta_time % 2000000 < 750000 then DSHOT_CMD_BEEP2
  else if delta_time % 2000000 < 1000000 then DSHOT_CMD_BEEP4
  else 0

/-- The function `motorbeep()`: the new globals and the events produced. -/
def motorbeep (cfg : Config) (env : Env) (g : Globals) : Globals × List Event :=
  if env.failsafe ≠ 0 then
    let time := env.gettime % 4294967296
    let motor_beep_time := if g.motor_beep_time = 0 then time else g.motor_beep_time
    let delta_time := elapsed time motor_beep_time
    if delta_time > MOTOR_BEEPS_TIMEOUT then
      let beep_command := beep_command delta_time
      if beep_command ≠ 0 then
        let m := make_packet 0 beep_command true g.motor_data
        let m := make_packet 1 beep_command true m
        let m := make_packet 2 beep_command true m
        let m := make_packet 3 beep_command true m
        let r := bitbang_data cfg m
        ({ g with motor_beep_time := motor_beep_time, motor_data := r.1 }, r.2)
      else
        ({ g with motor_beep_time := motor_beep_time }, [])
    else
      ({ g with motor_beep_time := motor_beep_time }, [])
  else
    ({ g with motor_beep_time := 0 }, [])

/-! ## Notions used in the statements -/

namespace F32

/-- The significand of the binary32 product with `960.0f`, in units of `2 ^ (E - 150)` for an
operand with exponent field `E`, from the exact 48-bit product `n` of the significands. -/
def round960 (n : Nat) : Nat :=
  if n < 2 ^ 47 then roundNE n 23 * 2 ^ 9 else roundNE n 24 * 2 ^ 10

/-- The value of `(uint16_t)( pwm * 960 )` for a non-negative finite `pwm` below 1 with
exponent field `E` and fraction `M`. -/
def scale960 (E M : Nat) : Nat :=
  if E = 0 then 0 else (round960 ((8388608 + M) * 15728640) * 2 ^ E) / 2 ^ 150

end F32

/-- Whether channel `number` is high in slot `j` of the rendering of `frame`. -/
def pulse_bit (frame j : Nat) : Bool :=
  decide (j % 4 = 0) || (decide (j % 4 ≠ 3) && frame.testBit (15 - j / 4))

/-- The mask `make_packet` ORs into slot `4 * i + r` for channel `number`, given the frame
bit rendered there: `1 << number` or `0 << number`. -/
def pulse_mask (number : Nat) (bit : Bool) (r : Nat) : Nat :=
  if r = 0 then 1 <<< number else if r = 3 then 0 else if bit then 1 <<< number else 0

/-- The 12-bit field of the spec: `(value << 1) | telemetryFlag`. -/
def spec_field (value : Nat) (telemetry : Bool) : Nat :=
  (value <<< 1) ||| (if telemetry then 1 else 0)

/-- The checksum of the spec: the XOR of the three 4-bit nibbles of the 12-bit field,
kept to its low 4 bits. -/
def spec_checksum (field : Nat) : Nat :=
  ((field &&& 0xf) ^^^ ((field >>> 4) &&& 0xf) ^^^ ((field >>> 8) &&& 0xf)) &&& 0xf

/-- The frame of the spec: `(twelveBitField << 4) | checksum`. -/
def spec_frame (value : Nat) (telemetry : Bool) : Nat :=
  (spec_field value telemetry <<< 4) ||| spec_checksum (spec_field value telemetry)

/-- The pin writes among the events, in order: port, pin number, level
(`true` for `gpioset`, `false` for `gpioreset`). -/
def pin_writes : List Event → List (Port × Nat × Bool)
  | [] => []
  | Event.nop :: es => pin_writes es
  | Event.gpioset port pin :: es => (port, pin, true) :: pin_writes es
  | Event.gpioreset port pin :: es => (port, pin, false) :: pin_writes es

/-- The levels written to one pin, in order. -/
def pin_levels (port : Port) (pin : Nat) (evs : List Event) : List Bool :=
  (pin_writes evs).filterMap (fun w => if w.1 = port ∧ w.2.1 = pin then some w.2.2 else none)

/-- The four pin writes of one slot: channels 0, 1, 2, 3 on PA1, PA3, PA10, PA8, each
high exactly when the channel's bit of the slot value is set. -/
def slot_writes (data : Nat) : List (Port × Nat × Bool) :=
  [(Port.GPIOA, 1, data.testBit 0), (Port.GPIOA, 3, data.testBit 1),
   (Port.GPIOA, 10, data.testBit 2), (Port.GPIOA, 8, data.testBit 3)]

/-- The MSB-first pulse rendering of a 16-bit frame: high-high-high-low for a 1 bit,
high-low-low-low for a 0 bit. -/
def render (frame : Nat) : List Bool :=
  (List.range 16).flatMap (fun i =>
    if frame.testBit (15 - i) then [true, true, true, false] else [true, false, false, false])

/-- The value of the local `motor_beep_time` of `motorbeep` after the latching statement
`if ( motor_beep_time == 0 ) motor_beep_time = time;`. -/
def beep_latch (env : Env) (g : Globals) : Nat :=
  if g.motor_beep_time = 0 then env.gettime % 4294967296 else g.motor_beep_time

/-- The value of `delta_time` in `motorbeep`: the time elapsed since the latch. -/
def beep_delta (env : Env) (g : Globals) : Nat :=
  elapsed (env.gettime % 4294967296) (beep_latch env g)

/-- The timeline after the four `make_packet( n, beep_command, true )` calls of
`motorbeep`. -/
def beep_timeline (command : Nat) (motor_data : List Nat) : List Nat :=
  make_packet 3 command true (make_packet 2 command true (make_packet 1 command true
    (make_packet 0 command true motor_data)))

/-- A sequence of `pwm_set` calls made by the caller, each with its own environment,
channel and throttle: the globals after the last one. -/
def pwm_set_calls (cfg : Config) : List (Env × Nat × F32) → Globals → Globals
  | [], g => g
  | c :: cs, g => pwm_set_calls cfg cs (pwm_set cfg c.1 c.2.1 c.2.2 g).1

/-- The pin of port A that `bitbang_data` drives for a channel: PA1, PA3, PA10, PA8 for
channels 0, 1, 2, 3. -/
def channel_pin (number : Nat) : Nat :=
  if number = 0 then 1 else if number = 1 then 3 else if number = 2 then 10 else 8

/-- The integer part of a non-negative product computed in binary32, written with the
exact product `q`: the floor of `q`, plus one when `q` lies within half a unit in the last
place below the next integer `⌊q⌋ + 1`. For `q` in `[2 ^ e, 2 ^ (e + 1))` the unit in the
last place of binary32 is `2 ^ (e - 23)`, with `e = Int.log 2 q`. -/
def spec_round_floor (q : ℚ) : Int :=
  ⌊q⌋ + if (⌊q⌋ : ℚ) + 1 ≤ q + (2 : ℚ) ^ (Int.log 2 q - 24) then 1 else 0

/-! ## Theorems -/

theorem or_slot_length (md : List Nat) (idx mask : Nat) :
    (or_slot md idx mask).length = md.length := by
  simp [or_slot]

theorem or_slot_getD (md : List Nat) (idx mask j : Nat) :
    (or_slot md idx mask).getD j 0 =
      if j = idx ∧ j < md.length then (md.getD j 0 ||| mask) % 256 else md.getD j 0 := by
  unfold or_slot
  simp only [List.getD_eq_getElem?_getD, List.getElem?_set]
  by_cases h : idx = j
  · subst h
    by_cases h2 : idx < md.length
    · simp [h2]
    · simp [h2, List.getElem?_eq_none (Nat.le_of_not_lt h2)]
  · have h' : ¬ j = idx := fun e => h e.symm
    simp [h, h']

theorem pulse_body_getD (number i packet j : Nat) (md : List Nat) :
    (if packet &&& 0x8000 ≠ 0 then
        or_slot (or_slot (or_slot (or_slot md (i * 4 + 0) (1 <<< number)) (i * 4 + 1)
          (1 <<< number)) (i * 4 + 2) (1 <<< number)) (i * 4 + 3) (0 <<< number)
      else
        or_slot (or_slot (or_slot (or_slot md (i * 4 + 0) (1 <<< number)) (i * 4 + 1)
          (0 <<< number)) (i * 4 + 2) (0 <<< number)) (i * 4 + 3) (0 <<< number)).getD j 0 =
      if i * 4 ≤ j ∧ j < i * 4 + 4 ∧ j < md.length then
        (md.getD j 0 ||| pulse_mask number (decide (packet &&& 0x8000 ≠ 0)) (j % 4)) % 256
      else md.getD j 0 := by
  have e0 : (i * 4) % 4 = 0 := by omega
  have e1 : (i * 4 + 1) % 4 = 1 := by omega
  have e2 : (i * 4 + 2) % 4 = 2 := by omega
  have e3 : (i * 4 + 3) % 4 = 3 := by omega
  by_cases hp : packet &&& 0x8000 ≠ 0
  · rw [if_pos hp]
    simp only [or_slot_getD, or_slot_length, Nat.zero_shiftLeft]
    by_cases hl : j < md.length
    · by_cases h0 : j = i * 4
      · subst h0; simp [hl, pulse_mask, hp, e0]
      · by_cases h1 : j = i * 4 + 1
        · subst h1; simp [hl, pulse_mask, hp, e1]
        · by_cases h2 : j = i * 4 + 2
          · subst h2; simp [hl, pulse_mask, hp, e2]
          · by_cases h3 : j = i * 4 + 3
            · subst h3; simp [hl, pulse_mask, hp, e3]
            · have : ¬ (i * 4 ≤ j ∧ j < i * 4 + 4 ∧ j < md.length) := by omega
              simp [h0, h1, h2, h3, this]
    · simp [hl]
  · rw [if_neg hp]
    simp only [or_slot_getD, or_slot_length, Nat.zero_shiftLeft]
    by_cases hl : j < md.length
    · by_cases h0 : j = i * 4
      · subst h0; simp [hl, pulse_mask, hp, e0]
      · by_cases h1 : j = i * 4 + 1
        · subst h1; simp [hl, pulse_mask, hp, e1]
        · by_cases h2 : j = i * 4 + 2
          · subst h2; simp [hl, pulse_mask, hp, e2]
          · by_cases h3 : j = i * 4 + 3
            · subst h3; simp [hl, pulse_mask, hp, e3]
            · have : ¬ (i * 4 ≤ j ∧ j < i * 4 + 4 ∧ j < md.length) := by omega
              simp [h0, h1, h2, h3, this]
    · simp [hl]

theorem shl16_shl (p m : Nat) :
    (((p <<< 1) % 65536) <<< m) % 65536 = (p <<< (m + 1)) % 65536 := by
  simp only [Nat.shiftLeft_eq]
  rw [Nat.mul_mod, Nat.mod_mod, ← Nat.mul_mod, Nat.pow_succ]
  congr 1
  ring

theorem and_msb_mod (x : Nat) : (x % 65536) &&& 0x8000 = x &&& 0x8000 := by
  have h1 : (32768 : Nat) = 2 ^ 15 := by norm_num
  have h2 : (65536 : Nat) = 2 ^ 16 := by norm_num
  rw [h1, h2, Nat.and_two_pow, Nat.and_two_pow, Nat.testBit_mod_two_pow]
  simp

theorem msb_test (p m : Nat) (hm : m ≤ 15) :
    decide (((p <<< m) % 65536) &&& 0x8000 ≠ 0) = p.testBit (15 - m) := by
  have h1 : (32768 : Nat) = 2 ^ 15 := by norm_num
  have h2 : (65536 : Nat) = 2 ^ 16 := by norm_num
  rw [h1, h2, Nat.and_two_pow, Nat.testBit_mod_two_pow, Nat.testBit_shiftLeft]
  have h3 : decide (15 ≥ m) = true := by simpa using hm
  cases h : p.testBit (15 - m) <;> simp [h, h3]

theorem pulse_loop_length (number : Nat) :
    ∀ (k i packet : Nat) (md : List Nat), (pulse_loop number k i packet md).length = md.length := by
  intro k
  induction k with
  | zero => intro i packet md; rfl
  | succ k ih =>
    intro i packet md
    simp only [pulse_loop]
    rw [ih]
    split <;> simp [or_slot_length]

theorem pulse_loop_getD (number : Nat) :
    ∀ (k i packet : Nat) (md : List Nat) (j : Nat),
      (pulse_loop number k i packet md).getD j 0 =
        if i * 4 ≤ j ∧ j < (i + k) * 4 ∧ j < md.length then
          (md.getD j 0 ||| pulse_mask number
            (decide (((packet <<< (j / 4 - i)) % 65536) &&& 0x8000 ≠ 0)) (j % 4)) % 256
        else md.getD j 0 := by
  intro k
  induction k with
  | zero =>
    intro i packet md j
    have : ¬ (i * 4 ≤ j ∧ j < (i + 0) * 4 ∧ j < md.length) := by omega
    rw [if_neg this]
    rfl
  | succ k ih =>
    intro i packet md j
    simp only [pulse_loop]
    rw [ih, pulse_body_getD]
    have hlen : (if packet &&& 0x8000 ≠ 0 then
        or_slot (or_slot (or_slot (or_slot md (i * 4 + 0) (1 <<< number)) (i * 4 + 1)
          (1 <<< number)) (i * 4 + 2) (1 <<< number)) (i * 4 + 3) (0 <<< number)
      else
        or_slot (or_slot (or_slot (or_slot md (i * 4 + 0) (1 <<< number)) (i * 4 + 1)
          (0 <<< number)) (i * 4 + 2) (0 <<< number)) (i * 4 + 3) (0 <<< number)).length
        = md.length := by
      split <;> simp [or_slot_length]
    rw [hlen]
    by_cases hl : j < md.length
    · by_cases ha : j < i * 4
      · have n1 : ¬ ((i + 1) * 4 ≤ j ∧ j < (i + 1 + k) * 4 ∧ j < md.length) := by omega
        have n2 : ¬ (i * 4 ≤ j ∧ j < i * 4 + 4 ∧ j < md.length) := by omega
        have n3 : ¬ (i * 4 ≤ j ∧ j < (i + (k + 1)) * 4 ∧ j < md.length) := by omega
        rw [if_neg n1, if_neg n2, if_neg n3]
      · by_cases hb : j < i * 4 + 4
        · have n1 : ¬ ((i + 1) * 4 ≤ j ∧ j < (i + 1 + k) * 4 ∧ j < md.length) := by omega
          have n2 : (i * 4 ≤ j ∧ j < i * 4 + 4 ∧ j < md.length) := by omega
          have n3 : (i * 4 ≤ j ∧ j < (i + (k + 1)) * 4 ∧ j < md.length) := by omega
          have e : j / 4 - i = 0 := by omega
          rw [if_neg n1, if_pos n2, if_pos n3, e, Nat.shiftLeft_zero, and_msb_mod]
        · by_cases hc : j < (i + 1 + k) * 4
          · have n1 : ((i + 1) * 4 ≤ j ∧ j < (i + 1 + k) * 4 ∧ j < md.length) := by omega
            have n2 : ¬ (i * 4 ≤ j ∧ j < i * 4 + 4 ∧ j < md.length) := by omega
            have n3 : (i * 4 ≤ j ∧ j < (i + (k + 1)) * 4 ∧ j < md.length) := by omega
            have e : j / 4 - i = (j / 4 - (i + 1)) + 1 := by omega
            rw [if_pos n1, if_neg n2, if_pos n3, e, shl16_shl]
          · have n1 : ¬ ((i + 1) * 4 ≤ j ∧ j < (i + 1 + k) * 4 ∧ j < md.length) := by omega
            have n2 : ¬ (i * 4 ≤ j ∧ j < i * 4 + 4 ∧ j < md.length) := by omega
            have n3 : ¬ (i * 4 ≤ j ∧ j < (i + (k + 1)) * 4 ∧ j < md.length) := by omega
            rw [if_neg n1, if_neg n2, if_neg n3]
    · have n1 : ¬ ((i + 1) * 4 ≤ j ∧ j < (i + 1 + k) * 4 ∧ j < md.length) := by omega
      have n2 : ¬ (i * 4 ≤ j ∧ j < i * 4 + 4 ∧ j < md.length) := by omega
      have n3 : ¬ (i * 4 ≤ j ∧ j < (i + (k + 1)) * 4 ∧ j < md.length) := by omega
      rw [if_neg n1, if_neg n2, if_neg n3]

theorem make_packet_length (number value : Nat) (telemetry : Bool) (md : List Nat) :
    (make_packet number value telemetry md).length = md.length := by
  simp [make_packet, pulse_loop_length]

/-- The slot `j` of the timeline after `make_packet`: within the 64 slots it is the old
slot with the channel's pulse mask ORed in, stored as a byte. -/
theorem make_packet_getD (number value : Nat) (telemetry : Bool) (md : List Nat) (j : Nat) :
    (make_packet number value telemetry md).getD j 0 =
      if j < 64 ∧ j < md.length then
        (md.getD j 0 ||| pulse_mask number
          ((make_packet_frame value telemetry).testBit (15 - j / 4)) (j % 4)) % 256
      else md.getD j 0 := by
  unfold make_packet
  rw [pulse_loop_getD]
  by_cases h : j < 64 ∧ j < md.length
  · have h' : 0 * 4 ≤ j ∧ j < (0 + 16) * 4 ∧ j < md.length := by omega
    rw [if_pos h, if_pos h', Nat.sub_zero, msb_test _ _ (by omega)]
  · have h' : ¬ (0 * 4 ≤ j ∧ j < (0 + 16) * 4 ∧ j < md.length) := by omega
    rw [if_neg h, if_neg h']

/-- Bit `b` of a slot after `make_packet`: the old bit, or the channel's pulse when `b` is
the channel encoded. -/
theorem make_packet_testBit (number value : Nat) (telemetry : Bool) (md : List Nat)
    (j b : Nat) (hj : j < 64) (hl : j < md.length) (hb : b < 8) :
    ((make_packet number value telemetry md).getD j 0).testBit b =
      ((md.getD j 0).testBit b ||
        (decide (b = number) && pulse_bit (make_packet_frame value telemetry) j)) := by
  rw [make_packet_getD, if_pos ⟨hj, hl⟩]
  have h256 : (256 : Nat) = 2 ^ 8 := by norm_num
  rw [h256, Nat.testBit_mod_two_pow, Nat.testBit_or]
  have hb' : decide (b < 8) = true := by simpa using hb
  rw [hb', Bool.true_and]
  congr 1
  unfold pulse_mask pulse_bit
  have hr : j % 4 < 4 := Nat.mod_lt _ (by norm_num)
  by_cases h0 : j % 4 = 0
  · simp [h0, Nat.one_shiftLeft, Nat.testBit_two_pow, eq_comm]
  · by_cases h3 : j % 4 = 3
    · simp [h3]
    · cases hbit : (make_packet_frame value telemetry).testBit (15 - j / 4) <;>
        simp [h0, h3, hbit, Nat.one_shiftLeft, Nat.testBit_two_pow, eq_comm]

set_option maxRecDepth 100000 in
theorem frame_decode_split : ∀ a < 32, ∀ b < 64, ∀ t : Bool,
    make_packet_frame (64 * a + b) t >>> 5 = 64 * a + b ∧
    (make_packet_frame (64 * a + b) t >>> 4) &&& 1 = (if t then 1 else 0) ∧
    ((make_packet_frame (64 * a + b) t >>> 12) &&& 0xf) ^^^
      ((make_packet_frame (64 * a + b) t >>> 8) &&& 0xf) ^^^
      ((make_packet_frame (64 * a + b) t >>> 4) &&& 0xf) ^^^
      (make_packet_frame (64 * a + b) t &&& 0xf) = 0 := by
  decide

set_option maxRecDepth 100000 in
theorem frame_spec_split : ∀ a < 32, ∀ b < 64, ∀ t : Bool,
    make_packet_frame (64 * a + b) t = spec_frame (64 * a + b) t := by
  decide

/-- Claim C1: for every 11-bit value `v` and telemetry flag `t`, the 16-bit frame
`make_packet` builds decodes back: `frame >> 5 = v`, `(frame >> 4) & 1 = t`, and the XOR of
the four nibbles of the frame is 0. -/
theorem make_packet_frame_decodes (v : Nat) (t : Bool) (hv : v ≤ 2047) :
    make_packet_frame v t < 65536 ∧
    make_packet_frame v t >>> 5 = v ∧
    (make_packet_frame v t >>> 4) &&& 1 = (if t then 1 else 0) ∧
    ((make_packet_frame v t >>> 12) &&& 0xf) ^^^ ((make_packet_frame v t >>> 8) &&& 0xf) ^^^
      ((make_packet_frame v t >>> 4) &&& 0xf) ^^^ (make_packet_frame v t &&& 0xf) = 0 := by
  have h := frame_decode_split (v / 64) (by omega) (v % 64) (by omega) t
  have e : 64 * (v / 64) + v % 64 = v := by omega
  rw [e] at h
  exact ⟨Nat.mod_lt _ (by norm_num), h⟩

theorem make_packet_frame_decodes_witness :
    make_packet_frame 1234 true < 65536 ∧
    make_packet_frame 1234 true >>> 5 = 1234 ∧
    (make_packet_frame 1234 true >>> 4) &&& 1 = (if true then 1 else 0) ∧
    ((make_packet_frame 1234 true >>> 12) &&& 0xf) ^^^
      ((make_packet_frame 1234 true >>> 8) &&& 0xf) ^^^
      ((make_packet_frame 1234 true >>> 4) &&& 0xf) ^^^ (make_packet_frame 1234 true &&& 0xf) = 0 :=
  make_packet_frame_decodes 1234 true (by decide)

/-- Claim C2: For every 11-bit value `v` and telemetry flag `t`, the frame `make_packet`
computes is `(f << 4) | c` with `f = (v << 1) | t` the 12-bit field and `c` the XOR of the
three nibbles of `f` kept to 4 bits; value 100 without telemetry gives field `0x0C8`,
checksum `0x4` and frame `0x0C84`. -/
theorem make_packet_frame_eq_spec (v : Nat) (t : Bool) (hv : v ≤ 2047) :
    make_packet_frame v t = spec_frame v t ∧
    spec_field 100 false = 0x0C8 ∧ spec_checksum 0x0C8 = 0x4 ∧
    make_packet_frame 100 false = 0x0C84 := by
  refine ⟨?_, by decide, by decide, by decide⟩
  have h := frame_spec_split (v / 64) (by omega) (v % 64) (by omega) t
  have e : 64 * (v / 64) + v % 64 = v := by omega
  rw [e] at h
  exact h

theorem make_packet_frame_eq_spec_witness :
    make_packet_frame 2047 true = spec_frame 2047 true ∧
    spec_field 100 false = 0x0C8 ∧ spec_checksum 0x0C8 = 0x4 ∧
    make_packet_frame 100 false = 0x0C84 :=
  make_packet_frame_eq_spec 2047 true (by decide)

theorem getD_replicate_zero (n j : Nat) : (List.replicate n 0).getD j 0 = 0 := by
  simp only [List.getD_eq_getElem?_getD, List.getElem?_replicate]
  split <;> rfl

/-- On an all-zero timeline of 64 slots, bit `n` of slot `j` after `make_packet` on
channel `n` is the pulse level of the frame in that slot. -/
theorem make_packet_zero_testBit (n v : Nat) (t : Bool) (j : Nat) (hn : n < 8) (hj : j < 64) :
    ((make_packet n v t (List.replicate 64 0)).getD j 0).testBit n =
      pulse_bit (make_packet_frame v t) j := by
  rw [make_packet_testBit n v t _ j n hj (by rw [List.length_replicate]; exact hj) hn,
    getD_replicate_zero]
  simp

/-- Claim C3: For every channel `n` in 0..3, 11-bit value `v` and telemetry flag `t`,
`make_packet( n, v, t )` on an all-zero 64-slot timeline renders the frame MSB first, four
slots per bit: for bit index `i` in 0..15 with `b` the bit `15 - i` of the frame, bit `n` of
slot `4i` is 1, of slots `4i+1` and `4i+2` is `b`, and of slot `4i+3` is 0. -/
theorem make_packet_renders (n v : Nat) (t : Bool) (i : Nat) (hn : n < 4) (_hv : v ≤ 2047)
    (hi : i < 16) :
    ((make_packet n v t (List.replicate 64 0)).getD (4 * i) 0).testBit n = true ∧
    ((make_packet n v t (List.replicate 64 0)).getD (4 * i + 1) 0).testBit n =
      (make_packet_frame v t).testBit (15 - i) ∧
    ((make_packet n v t (List.replicate 64 0)).getD (4 * i + 2) 0).testBit n =
      (make_packet_frame v t).testBit (15 - i) ∧
    ((make_packet n v t (List.replicate 64 0)).getD (4 * i + 3) 0).testBit n = false := by
  have d1 : (4 * i + 1) / 4 = i := by omega
  have d2 : (4 * i + 2) / 4 = i := by omega
  have m0 : (4 * i) % 4 = 0 := by omega
  have m1 : (4 * i + 1) % 4 = 1 := by omega
  have m2 : (4 * i + 2) % 4 = 2 := by omega
  have m3 : (4 * i + 3) % 4 = 3 := by omega
  rw [make_packet_zero_testBit n v t (4 * i) (by omega) (by omega),
    make_packet_zero_testBit n v t (4 * i + 1) (by omega) (by omega),
    make_packet_zero_testBit n v t (4 * i + 2) (by omega) (by omega),
    make_packet_zero_testBit n v t (4 * i + 3) (by omega) (by omega)]
  unfold pulse_bit
  rw [m0, m1, m2, m3, d1, d2]
  simp

theorem make_packet_renders_witness :
    ((make_packet 2 100 false (List.replicate 64 0)).getD (4 * 4) 0).testBit 2 = true ∧
    ((make_packet 2 100 false (List.replicate 64 0)).getD (4 * 4 + 1) 0).testBit 2 =
      (make_packet_frame 100 false).testBit (15 - 4) ∧
    ((make_packet 2 100 false (List.replicate 64 0)).getD (4 * 4 + 2) 0).testBit 2 =
      (make_packet_frame 100 false).testBit (15 - 4) ∧
    ((make_packet 2 100 false (List.replicate 64 0)).getD (4 * 4 + 3) 0).testBit 2 = false :=
  make_packet_renders 2 100 false 4 (by decide) (by decide) (by decide)

/-- Claim C4: For every timeline, distinct channels `a` and `b` in 0..3, value and
telemetry flag, `make_packet` on channel `a` leaves bit `b` of each of the 64 slots
unchanged; hence, when all four channels are encoded into a zero timeline, the bits of
each channel are those of that channel encoded alone, whatever the other channels hold. -/
theorem make_packet_other_channel (a b : Nat) (_ha : a < 4) (hb : b < 4) (hab : a ≠ b) :
    (∀ (md : List Nat) (value : Nat) (telemetry : Bool) (j : Nat), j < 64 →
      ((make_packet a value telemetry md).getD j 0).testBit b = (md.getD j 0).testBit b) ∧
    (∀ (v : Nat → Nat) (t : Nat → Bool) (c j : Nat), c < 4 → j < 64 →
      ((make_packet 3 (v 3) (t 3) (make_packet 2 (v 2) (t 2) (make_packet 1 (v 1) (t 1)
        (make_packet 0 (v 0) (t 0) (List.replicate 64 0))))).getD j 0).testBit c =
      ((make_packet c (v c) (t c) (List.replicate 64 0)).getD j 0).testBit c) := by
  constructor
  · intro md value telemetry j hj
    by_cases hl : j < md.length
    · rw [make_packet_testBit a value telemetry md j b hj hl (by omega)]
      have : decide (b = a) = false := by simpa using fun e => hab e.symm
      simp [this]
    · rw [make_packet_getD, if_neg (by omega)]
  · intro v t c j hc hj
    have hl0 : j < (List.replicate 64 (0 : Nat)).length := by
      rw [List.length_replicate]; exact hj
    have hl1 : j < (make_packet 0 (v 0) (t 0) (List.replicate 64 0)).length := by
      rw [make_packet_length]; exact hl0
    have hl2 : j < (make_packet 1 (v 1) (t 1)
        (make_packet 0 (v 0) (t 0) (List.replicate 64 0))).length := by
      rw [make_packet_length]; exact hl1
    have hl3 : j < (make_packet 2 (v 2) (t 2) (make_packet 1 (v 1) (t 1)
        (make_packet 0 (v 0) (t 0) (List.replicate 64 0)))).length := by
      rw [make_packet_length]; exact hl2
    rw [make_packet_testBit 3 _ _ _ j c hj hl3 (by omega),
      make_packet_testBit 2 _ _ _ j c hj hl2 (by omega),
      make_packet_testBit 1 _ _ _ j c hj hl1 (by omega),
      make_packet_testBit 0 _ _ _ j c hj hl0 (by omega),
      make_packet_testBit c _ _ _ j c hj hl0 (by omega), getD_replicate_zero]
    have hc4 : c = 0 ∨ c = 1 ∨ c = 2 ∨ c = 3 := by omega
    rcases hc4 with h | h | h | h <;> subst h <;> simp

theorem make_packet_other_channel_witness :
    (∀ (md : List Nat) (value : Nat) (telemetry : Bool) (j : Nat), j < 64 →
      ((make_packet 1 value telemetry md).getD j 0).testBit 3 = (md.getD j 0).testBit 3) ∧
    (∀ (v : Nat → Nat) (t : Nat → Bool) (c j : Nat), c < 4 → j < 64 →
      ((make_packet 3 (v 3) (t 3) (make_packet 2 (v 2) (t 2) (make_packet 1 (v 1) (t 1)
        (make_packet 0 (v 0) (t 0) (List.replicate 64 0))))).getD j 0).testBit c =
      ((make_packet c (v c) (t c) (List.replicate 64 0)).getD j 0).testBit c) :=
  make_packet_other_channel 1 3 (by decide) (by decide) (by decide)

theorem pin_writes_append (a b : List Event) :
    pin_writes (a ++ b) = pin_writes a ++ pin_writes b := by
  induction a with
  | nil => rfl
  | cons e es ih => cases e <;> simp [pin_writes, ih]

theorem pin_writes_replicate_nop (n : Nat) : pin_writes (List.replicate n Event.nop) = [] := by
  induction n with
  | zero => rfl
  | succ n ih => simp [List.replicate_succ, pin_writes, ih]

theorem and_two_pow_ne_zero (x c : Nat) : (x &&& 2 ^ c ≠ 0) ↔ x.testBit c = true := by
  rw [Nat.and_two_pow]
  cases h : x.testBit c <;> simp [h]

theorem pin_writes_pin_block (data c pin : Nat) :
    pin_writes (pin_block data (2 ^ c) pin) = [(Port.GPIOA, pin, data.testBit c)] := by
  unfold pin_block
  by_cases h : data &&& 2 ^ c ≠ 0
  · rw [if_pos h]
    rw [(and_two_pow_ne_zero data c).1 h]
    rfl
  · rw [if_neg h]
    have : data.testBit c = false := by
      cases hb : data.testBit c
      · rfl
      · exact absurd ((and_two_pow_ne_zero data c).2 hb) h
    rw [this]
    rfl

theorem pin_writes_slot_events (d : Bool) (data : Nat) :
    pin_writes (slot_events d data) = slot_writes data := by
  unfold slot_events slot_delay
  have b0 : pin_writes (pin_block data 0x01 1) = [(Port.GPIOA, 1, data.testBit 0)] :=
    pin_writes_pin_block data 0 1
  have b1 : pin_writes (pin_block data 0x02 3) = [(Port.GPIOA, 3, data.testBit 1)] :=
    pin_writes_pin_block data 1 3
  have b2 : pin_writes (pin_block data 0x04 10) = [(Port.GPIOA, 10, data.testBit 2)] :=
    pin_writes_pin_block data 2 10
  have b3 : pin_writes (pin_block data 0x08 8) = [(Port.GPIOA, 8, data.testBit 3)] :=
    pin_writes_pin_block data 3 8
  simp only [pin_writes_append, b0, b1, b2, b3, pin_writes_replicate_nop]
  rfl

theorem bitbang_loop_length (d : Bool) :
    ∀ (k i : Nat) (md : List Nat), (bitbang_loop d k i md).1.length = md.length := by
  intro k
  induction k with
  | zero => intro i md; rfl
  | succ k ih => intro i md; simp [bitbang_loop, ih]

theorem getD_set_zero (md : List Nat) (i j : Nat) :
    (md.set i 0).getD j 0 = if j = i then 0 else md.getD j 0 := by
  simp only [List.getD_eq_getElem?_getD, List.getElem?_set]
  by_cases h : i = j
  · subst h
    by_cases h2 : i < md.length <;> simp [h2]
  · have h' : ¬ j = i := fun e => h e.symm
    simp [h, h']

theorem bitbang_loop_getD (d : Bool) :
    ∀ (k i : Nat) (md : List Nat) (j : Nat),
      (bitbang_loop d k i md).1.getD j 0 = if i ≤ j ∧ j < i + k then 0 else md.getD j 0 := by
  intro k
  induction k with
  | zero =>
    intro i md j
    have : ¬ (i ≤ j ∧ j < i + 0) := by omega
    rw [if_neg this]
    rfl
  | succ k ih =>
    intro i md j
    simp only [bitbang_loop]
    rw [ih, getD_set_zero]
    by_cases h1 : i + 1 ≤ j ∧ j < i + 1 + k
    · rw [if_pos h1, if_pos (by omega)]
    · rw [if_neg h1]
      by_cases h2 : j = i
      · rw [if_pos h2, if_pos (by omega)]
      · rw [if_neg h2, if_neg (by omega)]

theorem bitbang_loop_events (d : Bool) :
    ∀ (k i : Nat) (md : List Nat),
      (bitbang_loop d k i md).2 =
        (List.range' i k).flatMap (fun s => slot_events d (md.getD s 0)) := by
  intro k
  induction k with
  | zero => intro i md; rfl
  | succ k ih =>
    intro i md
    simp only [bitbang_loop, List.range'_succ, List.flatMap_cons]
    rw [ih]
    congr 1
    apply List.flatMap_congr
    intro s hs
    rw [getD_set_zero, if_neg]
    have := (List.mem_range'_1.1 hs).1
    omega

theorem bitbang_data_motor_data (cfg : Config) (md : List Nat) (hlen : md.length = 64) :
    (bitbang_data cfg md).1 = List.replicate 64 0 := by
  rw [List.eq_replicate_iff]
  constructor
  · unfold bitbang_data
    rw [bitbang_loop_length, hlen]
  · intro b hb
    obtain ⟨n, hn, rfl⟩ := List.getElem_of_mem hb
    have hn64 : n < 64 := by
      unfold bitbang_data at hn
      rw [bitbang_loop_length, hlen] at hn
      exact hn
    have h := bitbang_loop_getD cfg.DSHOT150 64 0 md n
    rw [if_pos (by omega)] at h
    rw [← h]
    exact (List.getD_eq_getElem _ _ hn).symm

theorem bitbang_data_writes (cfg : Config) (md : List Nat) :
    pin_writes (bitbang_data cfg md).2 =
      (List.range 64).flatMap (fun s => slot_writes (md.getD s 0)) := by
  unfold bitbang_data
  rw [bitbang_loop_events, List.range_eq_range']
  generalize List.range' 0 64 = l
  induction l with
  | nil => rfl
  | cons s l ih => simp only [List.flatMap_cons, pin_writes_append, pin_writes_slot_events, ih]

theorem flatMap_slot_writes_length (f : Nat → Nat) (l : List Nat) :
    (l.flatMap (fun s => slot_writes (f s))).length = 4 * l.length := by
  induction l with
  | nil => rfl
  | cons s l ih =>
    rw [List.flatMap_cons, List.length_append, ih, List.length_cons]
    simp only [slot_writes, List.length_cons, List.length_nil]
    omega

/-- Claim C5: For every content of the 64-slot timeline, all 64 slots are zero after
`bitbang_data` returns. -/
theorem bitbang_data_clears (cfg : Config) (md : List Nat) (hlen : md.length = 64) :
    (bitbang_data cfg md).1 = List.replicate 64 0 :=
  bitbang_data_motor_data cfg md hlen

theorem bitbang_data_clears_witness :
    (List.range 64).length = 64 ∧
    (bitbang_data ⟨true, false, 0, 1⟩ (List.range 64)).1 = List.replicate 64 0 :=
  ⟨by decide, bitbang_data_clears ⟨true, false, 0, 1⟩ (List.range 64) (by decide)⟩

theorem testBit_of_mod_16 (x y c : Nat) (hc : c < 4) (h : x % 16 = y % 16) :
    x.testBit c = y.testBit c := by
  have h16 : (16 : Nat) = 2 ^ 4 := by norm_num
  have hx := Nat.testBit_mod_two_pow x 4 c
  have hy := Nat.testBit_mod_two_pow y 4 c
  rw [← h16] at hx hy
  have hd : decide (c < 4) = true := by simpa using hc
  rw [hd, Bool.true_and] at hx hy
  rw [← hx, ← hy, h]

/-- Claim C6: For every content of the 64-slot timeline, `bitbang_data` performs exactly 256
pin writes, slot by slot in ascending order and within a slot channels 0, 1, 2, 3 on pins
PA1, PA3, PA10, PA8; the write for channel `c` in slot `s` is a set when bit `c` of the slot
value before the call is 1 and a reset otherwise, and bits 4..7 of a slot have no effect. -/
theorem bitbang_data_pin_writes (cfg : Config) (md : List Nat) (_hlen : md.length = 64) :
    pin_writes (bitbang_data cfg md).2 =
      (List.range 64).flatMap (fun s =>
        [(Port.GPIOA, 1, (md.getD s 0).testBit 0), (Port.GPIOA, 3, (md.getD s 0).testBit 1),
         (Port.GPIOA, 10, (md.getD s 0).testBit 2), (Port.GPIOA, 8, (md.getD s 0).testBit 3)]) ∧
    (pin_writes (bitbang_data cfg md).2).length = 256 ∧
    (∀ md2 : List Nat, md2.length = 64 → (∀ s < 64, md2.getD s 0 % 16 = md.getD s 0 % 16) →
      pin_writes (bitbang_data cfg md2).2 = pin_writes (bitbang_data cfg md).2) := by
  refine ⟨bitbang_data_writes cfg md, ?_, ?_⟩
  · rw [bitbang_data_writes, flatMap_slot_writes_length, List.length_range]
  · intro md2 _ h
    rw [bitbang_data_writes, bitbang_data_writes]
    apply List.flatMap_congr
    intro s hs
    have hs64 : s < 64 := List.mem_range.1 hs
    unfold slot_writes
    rw [testBit_of_mod_16 _ _ 0 (by decide) (h s hs64),
      testBit_of_mod_16 _ _ 1 (by decide) (h s hs64),
      testBit_of_mod_16 _ _ 2 (by decide) (h s hs64),
      testBit_of_mod_16 _ _ 3 (by decide) (h s hs64)]

theorem bitbang_data_pin_writes_witness :
    (List.range 64).length = 64 ∧
    (pin_writes (bitbang_data ⟨true, false, 0, 1⟩ (List.range 64)).2).length = 256 :=
  ⟨by decide, (bitbang_data_pin_writes ⟨true, false, 0, 1⟩ (List.range 64) (by decide)).2.1⟩

theorem render_block (b : Bool) :
    (if b = true then [true, true, true, false] else [true, false, false, false]) =
      [true, b, b, false] := by
  cases b <;> rfl

theorem map_pulse_bit_eq_render (frame : Nat) :
    (List.range 64).map (pulse_bit frame) = render frame := by
  unfold render
  simp only [render_block]
  simp [List.range_succ, pulse_bit]

/-- The levels `bitbang_data` writes to the pin of channel `c`: bit `c` of each slot, in
slot order. -/
theorem pin_levels_flatMap (f : Nat → Nat) (l : List Nat) :
    (l.flatMap (fun s => slot_writes (f s))).filterMap
        (fun w => if w.1 = Port.GPIOA ∧ w.2.1 = 1 then some w.2.2 else none) =
      l.map (fun s => (f s).testBit 0) ∧
    (l.flatMap (fun s => slot_writes (f s))).filterMap
        (fun w => if w.1 = Port.GPIOA ∧ w.2.1 = 3 then some w.2.2 else none) =
      l.map (fun s => (f s).testBit 1) ∧
    (l.flatMap (fun s => slot_writes (f s))).filterMap
        (fun w => if w.1 = Port.GPIOA ∧ w.2.1 = 10 then some w.2.2 else none) =
      l.map (fun s => (f s).testBit 2) ∧
    (l.flatMap (fun s => slot_writes (f s))).filterMap
        (fun w => if w.1 = Port.GPIOA ∧ w.2.1 = 8 then some w.2.2 else none) =
      l.map (fun s => (f s).testBit 3) := by
  induction l with
  | nil => simp
  | cons s l ih =>
    obtain ⟨h0, h1, h2, h3⟩ := ih
    simp only [List.flatMap_cons, List.filterMap_append, h0, h1, h2, h3, List.map_cons]
    simp [slot_writes, List.filterMap_cons]

theorem pin_levels_bitbang (cfg : Config) (md : List Nat) :
    pin_levels Port.GPIOA 1 (bitbang_data cfg md).2 =
      (List.range 64).map (fun s => (md.getD s 0).testBit 0) ∧
    pin_levels Port.GPIOA 3 (bitbang_data cfg md).2 =
      (List.range 64).map (fun s => (md.getD s 0).testBit 1) ∧
    pin_levels Port.GPIOA 10 (bitbang_data cfg md).2 =
      (List.range 64).map (fun s => (md.getD s 0).testBit 2) ∧
    pin_levels Port.GPIOA 8 (bitbang_data cfg md).2 =
      (List.range 64).map (fun s => (md.getD s 0).testBit 3) := by
  unfold pin_levels
  rw [bitbang_data_writes]
  exact pin_levels_flatMap (fun s => md.getD s 0) (List.range 64)

/-- Four channels encoded into the zero timeline: bit `c` of slot `j` is the pulse level of
the frame of channel `c`. -/
theorem four_channels_testBit (v0 v1 v2 v3 : Nat) (t0 t1 t2 t3 : Bool) (j : Nat) (hj : j < 64) :
    ((make_packet 3 v3 t3 (make_packet 2 v2 t2 (make_packet 1 v1 t1
        (make_packet 0 v0 t0 (List.replicate 64 0))))).getD j 0).testBit 0 =
      pulse_bit (make_packet_frame v0 t0) j ∧
    ((make_packet 3 v3 t3 (make_packet 2 v2 t2 (make_packet 1 v1 t1
        (make_packet 0 v0 t0 (List.replicate 64 0))))).getD j 0).testBit 1 =
      pulse_bit (make_packet_frame v1 t1) j ∧
    ((make_packet 3 v3 t3 (make_packet 2 v2 t2 (make_packet 1 v1 t1
        (make_packet 0 v0 t0 (List.replicate 64 0))))).getD j 0).testBit 2 =
      pulse_bit (make_packet_frame v2 t2) j ∧
    ((make_packet 3 v3 t3 (make_packet 2 v2 t2 (make_packet 1 v1 t1
        (make_packet 0 v0 t0 (List.replicate 64 0))))).getD j 0).testBit 3 =
      pulse_bit (make_packet_frame v3 t3) j := by
  have hl0 : j < (List.replicate 64 (0 : Nat)).length := by
    rw [List.length_replicate]; exact hj
  have hl1 : j < (make_packet 0 v0 t0 (List.replicate 64 0)).length := by
    rw [make_packet_length]; exact hl0
  have hl2 : j < (make_packet 1 v1 t1 (make_packet 0 v0 t0 (List.replicate 64 0))).length := by
    rw [make_packet_length]; exact hl1
  have hl3 : j < (make_packet 2 v2 t2 (make_packet 1 v1 t1
      (make_packet 0 v0 t0 (List.replicate 64 0)))).length := by
    rw [make_packet_length]; exact hl2
  refine ⟨?_, ?_, ?_, ?_⟩ <;>
  · rw [make_packet_testBit 3 _ _ _ j _ hj hl3 (by omega),
      make_packet_testBit 2 _ _ _ j _ hj hl2 (by omega),
      make_packet_testBit 1 _ _ _ j _ hj hl1 (by omega),
      make_packet_testBit 0 _ _ _ j _ hj hl0 (by omega), getD_replicate_zero]
    simp

theorem four_channels_length (v0 v1 v2 v3 : Nat) (t0 t1 t2 t3 : Bool) :
    (make_packet 3 v3 t3 (make_packet 2 v2 t2 (make_packet 1 v1 t1
        (make_packet 0 v0 t0 (List.replicate 64 0))))).length = 64 := by
  simp only [make_packet_length, List.length_replicate]

/-- The transmission of four channels encoded into the zero timeline: each pin carries the
rendering of its channel's frame. -/
theorem four_channels_levels (cfg : Config) (v0 v1 v2 v3 : Nat) (t0 t1 t2 t3 : Bool) :
    pin_levels Port.GPIOA 1 (bitbang_data cfg (make_packet 3 v3 t3 (make_packet 2 v2 t2
      (make_packet 1 v1 t1 (make_packet 0 v0 t0 (List.replicate 64 0)))))).2 =
      render (make_packet_frame v0 t0) ∧
    pin_levels Port.GPIOA 3 (bitbang_data cfg (make_packet 3 v3 t3 (make_packet 2 v2 t2
      (make_packet 1 v1 t1 (make_packet 0 v0 t0 (List.replicate 64 0)))))).2 =
      render (make_packet_frame v1 t1) ∧
    pin_levels Port.GPIOA 10 (bitbang_data cfg (make_packet 3 v3 t3 (make_packet 2 v2 t2
      (make_packet 1 v1 t1 (make_packet 0 v0 t0 (List.replicate 64 0)))))).2 =
      render (make_packet_frame v2 t2) ∧
    pin_levels Port.GPIOA 8 (bitbang_data cfg (make_packet 3 v3 t3 (make_packet 2 v2 t2
      (make_packet 1 v1 t1 (make_packet 0 v0 t0 (List.replicate 64 0)))))).2 =
      render (make_packet_frame v3 t3) := by
  obtain ⟨h0, h1, h2, h3⟩ := pin_levels_bitbang cfg (make_packet 3 v3 t3 (make_packet 2 v2 t2
      (make_packet 1 v1 t1 (make_packet 0 v0 t0 (List.replicate 64 0)))))
  rw [h0, h1, h2, h3, ← map_pulse_bit_eq_render, ← map_pulse_bit_eq_render,
    ← map_pulse_bit_eq_render, ← map_pulse_bit_eq_render]
  refine ⟨?_, ?_, ?_, ?_⟩ <;>
  · apply List.map_congr_left
    intro s hs
    have hs64 : s < 64 := List.mem_range.1 hs
    obtain ⟨e0, e1, e2, e3⟩ := four_channels_testBit v0 v1 v2 v3 t0 t1 t2 t3 s hs64
    first | exact e0 | exact e1 | exact e2 | exact e3

theorem pwm_set_of_ne_three (cfg : Config) (env : Env) (number : Nat) (pwm : F32) (g : Globals)
    (h : number ≠ 3) :
    pwm_set cfg env number pwm g =
      ({ g with pwm_failsafe_time := pwm_set_failsafe_time env g,
                motor_data := make_packet number (pwm_set_value cfg env pwm g) false
                  g.motor_data }, []) := by
  unfold pwm_set
  simp only [if_neg h]

theorem pwm_set_three (cfg : Config) (env : Env) (pwm : F32) (g : Globals) :
    pwm_set cfg env 3 pwm g =
      ({ g with pwm_failsafe_time := pwm_set_failsafe_time env g,
                motor_data := (bitbang_data cfg (make_packet 3 (pwm_set_value cfg env pwm g)
                  false g.motor_data)).1 },
        (bitbang_data cfg (make_packet 3 (pwm_set_value cfg env pwm g) false
          g.motor_data)).2) := by
  unfold pwm_set
  simp only [if_true]

/-- Claim C7: Starting from an all-zero timeline, one control cycle of `pwm_set` calls for
channels 0, 1, 2, 3 in that order produces no event during the calls for channels 0..2 and
exactly one transmission, of 256 pin writes, during the call for channel 3; there, the 64
levels written to the pin of each channel are the MSB-first pulse rendering of the frame
built from the value the mapper computed in that channel's call, with telemetry bit 0; and
the timeline is all-zero when the cycle ends. -/
theorem pwm_set_cycle (cfg : Config) (e0 e1 e2 e3 : Env) (p0 p1 p2 p3 : F32) (g : Globals)
    (hz : g.motor_data = List.replicate 64 0) :
    let r0 := pwm_set cfg e0 0 p0 g
    let r1 := pwm_set cfg e1 1 p1 r0.1
    let r2 := pwm_set cfg e2 2 p2 r1.1
    let r3 := pwm_set cfg e3 3 p3 r2.1
    r0.2 = [] ∧ r1.2 = [] ∧ r2.2 = [] ∧
    r3.2 = (bitbang_data cfg (make_packet 3 (pwm_set_value cfg e3 p3 r2.1) false
      (make_packet 2 (pwm_set_value cfg e2 p2 r1.1) false
        (make_packet 1 (pwm_set_value cfg e1 p1 r0.1) false
          (make_packet 0 (pwm_set_value cfg e0 p0 g) false (List.replicate 64 0)))))).2 ∧
    (pin_writes r3.2).length = 256 ∧
    pin_levels Port.GPIOA 1 r3.2 = render (make_packet_frame (pwm_set_value cfg e0 p0 g) false) ∧
    pin_levels Port.GPIOA 3 r3.2 =
      render (make_packet_frame (pwm_set_value cfg e1 p1 r0.1) false) ∧
    pin_levels Port.GPIOA 10 r3.2 =
      render (make_packet_frame (pwm_set_value cfg e2 p2 r1.1) false) ∧
    pin_levels Port.GPIOA 8 r3.2 =
      render (make_packet_frame (pwm_set_value cfg e3 p3 r2.1) false) ∧
    r3.1.motor_data = List.replicate 64 0 := by
  intro r0 r1 r2 r3
  have h0 : r0 = _ := pwm_set_of_ne_three cfg e0 0 p0 g (by decide)
  have h1 : r1 = _ := pwm_set_of_ne_three cfg e1 1 p1 r0.1 (by decide)
  have h2 : r2 = _ := pwm_set_of_ne_three cfg e2 2 p2 r1.1 (by decide)
  have h3 : r3 = _ := pwm_set_three cfg e3 p3 r2.1
  have m0 : r0.1.motor_data =
      make_packet 0 (pwm_set_value cfg e0 p0 g) false (List.replicate 64 0) := by
    rw [h0, hz]
  have m1 : r1.1.motor_data = make_packet 1 (pwm_set_value cfg e1 p1 r0.1) false
      (make_packet 0 (pwm_set_value cfg e0 p0 g) false (List.replicate 64 0)) := by
    rw [h1, m0]
  have m2 : r2.1.motor_data = make_packet 2 (pwm_set_value cfg e2 p2 r1.1) false
      (make_packet 1 (pwm_set_value cfg e1 p1 r0.1) false
        (make_packet 0 (pwm_set_value cfg e0 p0 g) false (List.replicate 64 0))) := by
    rw [h2, m1]
  have q3 : r3.2 = (bitbang_data cfg (make_packet 3 (pwm_set_value cfg e3 p3 r2.1) false
      (make_packet 2 (pwm_set_value cfg e2 p2 r1.1) false
        (make_packet 1 (pwm_set_value cfg e1 p1 r0.1) false
          (make_packet 0 (pwm_set_value cfg e0 p0 g) false (List.replicate 64 0)))))).2 := by
    rw [h3, m2]
  have d3 : r3.1.motor_data = (bitbang_data cfg (make_packet 3 (pwm_set_value cfg e3 p3 r2.1)
      false (make_packet 2 (pwm_set_value cfg e2 p2 r1.1) false
        (make_packet 1 (pwm_set_value cfg e1 p1 r0.1) false
          (make_packet 0 (pwm_set_value cfg e0 p0 g) false (List.replicate 64 0)))))).1 := by
    rw [h3, m2]
  obtain ⟨l0, l1, l2, l3⟩ := four_channels_levels cfg (pwm_set_value cfg e0 p0 g)
    (pwm_set_value cfg e1 p1 r0.1) (pwm_set_value cfg e2 p2 r1.1) (pwm_set_value cfg e3 p3 r2.1)
    false false false false
  refine ⟨by rw [h0], by rw [h1], by rw [h2], q3, ?_, ?_, ?_, ?_, ?_, ?_⟩
  · rw [q3, bitbang_data_writes, flatMap_slot_writes_length, List.length_range]
  · rw [q3]; exact l0
  · rw [q3]; exact l1
  · rw [q3]; exact l2
  · rw [q3]; exact l3
  · rw [d3]
    exact bitbang_data_motor_data cfg _ (four_channels_length _ _ _ _ _ _ _ _)

theorem pwm_set_cycle_witness :
    initial_globals.motor_data = List.replicate 64 0 ∧
    (pwm_set ⟨true, false, 0, 1⟩ ⟨0, 0, 5000⟩ 0 (F32.ofBits false 0x3F000000)
      initial_globals).2 = [] ∧
    (pwm_set ⟨true, false, 0, 1⟩ ⟨0, 0, 5000⟩ 3 (F32.ofBits false 0x3F000000)
      (pwm_set ⟨true, false, 0, 1⟩ ⟨0, 0, 5000⟩ 2 (F32.ofBits false 0x3F000000)
        (pwm_set ⟨true, false, 0, 1⟩ ⟨0, 0, 5000⟩ 1 (F32.ofBits false 0x3F000000)
          (pwm_set ⟨true, false, 0, 1⟩ ⟨0, 0, 5000⟩ 0 (F32.ofBits false 0x3F000000)
            initial_globals).1).1).1).1.motor_data = List.replicate 64 0 :=
  ⟨rfl,
   (pwm_set_cycle ⟨true, false, 0, 1⟩ ⟨0, 0, 5000⟩ ⟨0, 0, 5000⟩ ⟨0, 0, 5000⟩ ⟨0, 0, 5000⟩
      (F32.ofBits false 0x3F000000) (F32.ofBits false 0x3F000000) (F32.ofBits false 0x3F000000)
      (F32.ofBits false 0x3F000000) initial_globals rfl).1,
   (pwm_set_cycle ⟨true, false, 0, 1⟩ ⟨0, 0, 5000⟩ ⟨0, 0, 5000⟩ ⟨0, 0, 5000⟩ ⟨0, 0, 5000⟩
      (F32.ofBits false 0x3F000000) (F32.ofBits false 0x3F000000) (F32.ofBits false 0x3F000000)
      (F32.ofBits false 0x3F000000) initial_globals rfl).2.2.2.2.2.2.2.2.2⟩

namespace F32

theorem bitLengthAux_zero (fuel : Nat) : bitLengthAux fuel 0 = 0 := by
  cases fuel <;> simp [bitLengthAux]

theorem bitLengthAux_spec : ∀ (fuel n : Nat), n ≤ fuel →
    n < 2 ^ bitLengthAux fuel n ∧ (n ≠ 0 → 2 ^ (bitLengthAux fuel n - 1) ≤ n) := by
  intro fuel
  induction fuel with
  | zero =>
    intro n hn
    have : n = 0 := by omega
    subst this
    simp [bitLengthAux]
  | succ fuel ih =>
    intro n hn
    by_cases h0 : n = 0
    · subst h0
      simp [bitLengthAux]
    · have hrec : bitLengthAux (fuel + 1) n = bitLengthAux fuel (n / 2) + 1 := by
        simp [bitLengthAux, h0]
      rw [hrec]
      obtain ⟨h1, h2⟩ := ih (n / 2) (by omega)
      constructor
      · rw [Nat.pow_succ]
        omega
      · intro _
        rw [Nat.add_sub_cancel]
        by_cases hh : n / 2 = 0
        · rw [hh, bitLengthAux_zero]
          simp
          omega
        · have h3 := h2 hh
          have hpos : bitLengthAux fuel (n / 2) ≠ 0 := by
            intro hz
            rw [hz] at h1
            simp at h1
            exact hh h1
          obtain ⟨m, hm⟩ := Nat.exists_eq_succ_of_ne_zero hpos
          rw [hm] at h3 ⊢
          rw [Nat.succ_sub_one] at h3
          rw [Nat.pow_succ]
          omega

theorem bitLength_eq (n L : Nat) (h1 : 2 ^ (L - 1) ≤ n) (h2 : n < 2 ^ L) (hL : 1 ≤ L) :
    bitLength n = L := by
  have hn : n ≠ 0 := by
    have : 0 < 2 ^ (L - 1) := Nat.pow_pos (by norm_num)
    omega
  obtain ⟨a, b⟩ := bitLengthAux_spec n n (Nat.le_refl n)
  have b := b hn
  unfold bitLength
  have c1 : 2 ^ (L - 1) < 2 ^ bitLengthAux n n := Nat.lt_of_le_of_lt h1 a
  have c2 : 2 ^ (bitLengthAux n n - 1) < 2 ^ L := Nat.lt_of_le_of_lt b h2
  have d1 := (Nat.pow_lt_pow_iff_right (by norm_num : 1 < 2)).1 c1
  have d2 := (Nat.pow_lt_pow_iff_right (by norm_num : 1 < 2)).1 c2
  omega

theorem bitLength_le (n L : Nat) (h2 : n < 2 ^ L) : bitLength n ≤ L := by
  by_cases hn : n = 0
  · subst hn
    simp [bitLength, bitLengthAux]
  · obtain ⟨_, b⟩ := bitLengthAux_spec n n (Nat.le_refl n)
    have b := b hn
    unfold bitLength
    have c2 : 2 ^ (bitLengthAux n n - 1) < 2 ^ L := Nat.lt_of_le_of_lt b h2
    have d2 := (Nat.pow_lt_pow_iff_right (by norm_num : 1 < 2)).1 c2
    omega

theorem lt_two_pow_bitLength (n : Nat) : n < 2 ^ bitLength n :=
  (bitLengthAux_spec n n (Nat.le_refl n)).1

theorem roundNE_le (n s : Nat) : roundNE n s ≤ n / 2 ^ s + 1 := by
  unfold roundNE
  simp only
  split <;> omega

theorem toUInt16_small (x : F32) (h : x.exponent.val < 127) : toUInt16 x = 0 := by
  unfold toUInt16
  have hnan : x.isNaN = false := by
    unfold isNaN
    have : ¬ x.exponent.val = 255 := by omega
    simp [this]
  have hinf : x.isInf = false := by
    unfold isInf
    have : ¬ x.exponent.val = 255 := by omega
    simp [this]
  simp only [hnan, hinf, Bool.or_self, Bool.false_eq_true, if_false]
  split
  · rfl
  · have hsig : x.significand < 16777216 := by
      unfold significand
      have := x.mantissa.isLt
      split <;> omega
    have hsc : x.scale ≤ 126 := by
      unfold scale
      split <;> omega
    have h1 : x.significand * 2 ^ x.scale < 2 ^ 150 := by
      calc x.significand * 2 ^ x.scale
          < 16777216 * 2 ^ x.scale := Nat.mul_lt_mul_of_pos_right hsig (Nat.pow_pos (by norm_num))
        _ ≤ 16777216 * 2 ^ 126 :=
            Nat.mul_le_mul_left _ (Nat.pow_le_pow_right (by norm_num) hsc)
        _ = 2 ^ 150 := by norm_num
    rw [Nat.div_eq_of_lt h1]
    simp

theorem ofBits_exponent (s : Bool) (bits : Nat) :
    (ofBits s bits).exponent.val = bits / 8388608 % 256 := rfl

theorem ofBits_mantissa (s : Bool) (bits : Nat) :
    (ofBits s bits).mantissa.val = bits % 8388608 := rfl

theorem ofBits_sign (s : Bool) (bits : Nat) : (ofBits s bits).sign = s := rfl

theorem toUInt16_ofBits_normal (k r : Nat) (hr1 : 8388608 ≤ r) (hr2 : r ≤ 16777216)
    (hk : k ≤ 135) :
    toUInt16 (ofBits false (k * 8388608 + r)) = (r * 2 ^ (k + 1)) / 2 ^ 150 := by
  have hlt : r * 2 ^ (k + 1) / 2 ^ 150 < 65536 := by
    apply Nat.div_lt_of_lt_mul
    calc r * 2 ^ (k + 1) ≤ 16777216 * 2 ^ 136 :=
          Nat.mul_le_mul hr2 (Nat.pow_le_pow_right (by norm_num) (by omega))
      _ < 2 ^ 150 * 65536 := by norm_num
  unfold toUInt16 isNaN isInf significand scale
  simp only [ofBits_exponent, ofBits_mantissa, ofBits_sign]
  by_cases hr : r < 16777216
  · have e1 : (k * 8388608 + r) / 8388608 % 256 = k + 1 := by omega
    have e2 : (k * 8388608 + r) % 8388608 = r - 8388608 := by omega
    have e3 : 8388608 + (r - 8388608) = r := by omega
    have n255 : ¬ (k + 1 = 255) := by omega
    have n0 : ¬ (k + 1 = 0) := by omega
    simp only [e1, e2, e3, n255, n0, decide_False, Bool.false_and, Bool.or_self,
      Bool.false_eq_true, if_false]
    rw [if_neg (by omega)]
  · have hr' : r = 16777216 := by omega
    subst hr'
    have e1 : (k * 8388608 + 16777216) / 8388608 % 256 = k + 2 := by omega
    have e2 : (k * 8388608 + 16777216) % 8388608 = 0 := by omega
    have n255 : ¬ (k + 2 = 255) := by omega
    have n0 : ¬ (k + 2 = 0) := by omega
    have e4 : (8388608 + 0) * 2 ^ (k + 2) = 16777216 * 2 ^ (k + 1) := by
      rw [Nat.pow_succ 2 (k + 1)]
      ring
    simp only [e1, e2, n255, n0, decide_False, Bool.false_and, Bool.or_self,
      Bool.false_eq_true, if_false, e4]
    rw [if_neg (by omega)]

theorem round_normal (sign : Bool) (n e L : Nat) (hlen : bitLength n = L) (h24 : 24 ≤ L)
    (he : 175 ≤ e + L)
    (hb : (e + L - 175) * 8388608 + roundNE n (L - 24) < 0x7F800000) :
    round sign n e = ofBits sign ((e + L - 175) * 8388608 + roundNE n (L - 24)) := by
  unfold round
  simp only [hlen]
  rw [if_pos he, if_pos h24, if_neg (Nat.not_le.2 hb)]

theorem round_subnormal (sign : Bool) (n e : Nat) (he : e + bitLength n < 175)
    (he2 : e ≤ 151) :
    round sign n e = ofBits sign (roundNE n (151 - e)) := by
  unfold round
  simp only
  rw [if_neg (by omega), if_pos he2]

theorem f960_eq : ofNat 960 = ofBits false 0x44700000 := by decide

/-- The product of a positive normal value below 1 with `960.0f`: a normal value with
exponent field `k + 1` (or `k + 2` when the significand rounds up to `2 ^ 24`) and
significand `r`. -/
theorem mul960_normal_bits (a : F32) (hs : a.sign = false) (hE1 : 1 ≤ a.exponent.val)
    (hE2 : a.exponent.val ≤ 126) :
    ∃ k r : Nat, k ≤ 135 ∧ 8388608 ≤ r ∧ r ≤ 16777216 ∧
      mul a (ofNat 960) = ofBits false (k * 8388608 + r) ∧
      r * 2 ^ (k + 1) =
        round960 ((8388608 + a.mantissa.val) * 15728640) * 2 ^ a.exponent.val := by
  have hM := a.mantissa.isLt
  rw [f960_eq]
  have anan : a.isNaN = false := by
    unfold isNaN
    have : ¬ a.exponent.val = 255 := by omega
    simp [this]
  have ainf : a.isInf = false := by
    unfold isInf
    have : ¬ a.exponent.val = 255 := by omega
    simp [this]
  have azero : a.isZero = false := by
    unfold isZero
    have : ¬ a.exponent.val = 0 := by omega
    simp [this]
  have bnan : (ofBits false 0x44700000).isNaN = false := by decide
  have binf : (ofBits false 0x44700000).isInf = false := by decide
  have bzero : (ofBits false 0x44700000).isZero = false := by decide
  have bsig : (ofBits false 0x44700000).significand = 15728640 := by decide
  have bsc : (ofBits false 0x44700000).scale = 136 := by decide
  have asig : a.significand = 8388608 + a.mantissa.val := by
    unfold significand
    rw [if_neg (by omega)]
  have asc : a.scale = a.exponent.val := by
    unfold scale
    rw [if_neg (by omega)]
  unfold mul
  simp only [anan, ainf, azero, bnan, binf, bzero, Bool.or_self, Bool.false_eq_true, if_false,
    hs, ofBits_sign, bne_self_eq_false, asig, asc, bsig, bsc]
  generalize hn : (8388608 + a.mantissa.val) * 15728640 = n
  have hn1 : 2 ^ 46 ≤ n := by
    rw [← hn]
    norm_num
    omega
  have hn2 : n < 2 ^ 48 := by
    rw [← hn]
    norm_num
    omega
  unfold round960
  by_cases h47 : n < 2 ^ 47
  · have hlen : bitLength n = 47 := bitLength_eq n 47 hn1 h47 (by norm_num)
    have hr1 : 8388608 ≤ roundNE n 23 := by
      unfold roundNE
      norm_num at hn1 ⊢
      split <;> omega
    have hr2 : roundNE n 23 ≤ 16777216 := by
      have := roundNE_le n 23
      norm_num at h47 this
      omega
    have c1 : 175 ≤ a.exponent.val + 136 + 47 := by omega
    have c2 : (24 : Nat) ≤ 47 := by norm_num
    have ek : a.exponent.val + 136 + 47 - 175 = a.exponent.val + 8 := by omega
    have c3 : ¬ (0x7F800000 ≤ (a.exponent.val + 8) * 8388608 + roundNE n 23) := by omega
    have hb : (a.exponent.val + 136 + 47 - 175) * 8388608 + roundNE n (47 - 24) <
        0x7F800000 := by
      rw [ek]
      exact Nat.lt_of_not_le c3
    have hnum : roundNE n 23 * 2 ^ (a.exponent.val + 8 + 1) =
        roundNE n 23 * 2 ^ 9 * 2 ^ a.exponent.val := by
      rw [show a.exponent.val + 8 + 1 = 9 + a.exponent.val by omega, Nat.pow_add, Nat.mul_assoc]
    refine ⟨a.exponent.val + 8, roundNE n 23, by omega, hr1, hr2, ?_, ?_⟩
    · rw [round_normal false n _ 47 hlen c2 c1 hb, ek]
    · rw [if_pos h47, hnum]
  · have hlen : bitLength n = 48 := bitLength_eq n 48 (by norm_num at h47 ⊢; omega) hn2
      (by norm_num)
    have hr1 : 8388608 ≤ roundNE n 24 := by
      unfold roundNE
      norm_num at h47 ⊢
      split <;> omega
    have hr2 : roundNE n 24 ≤ 16777216 := by
      have := roundNE_le n 24
      norm_num at hn2 this
      omega
    have c1 : 175 ≤ a.exponent.val + 136 + 48 := by omega
    have c2 : (24 : Nat) ≤ 48 := by norm_num
    have ek : a.exponent.val + 136 + 48 - 175 = a.exponent.val + 9 := by omega
    have c3 : ¬ (0x7F800000 ≤ (a.exponent.val + 9) * 8388608 + roundNE n 24) := by omega
    have hb : (a.exponent.val + 136 + 48 - 175) * 8388608 + roundNE n (48 - 24) <
        0x7F800000 := by
      rw [ek]
      exact Nat.lt_of_not_le c3
    have hnum : roundNE n 24 * 2 ^ (a.exponent.val + 9 + 1) =
        roundNE n 24 * 2 ^ 10 * 2 ^ a.exponent.val := by
      rw [show a.exponent.val + 9 + 1 = 10 + a.exponent.val by omega, Nat.pow_add, Nat.mul_assoc]
    refine ⟨a.exponent.val + 9, roundNE n 24, by omega, hr1, hr2, ?_, ?_⟩
    · rw [round_normal false n _ 48 hlen c2 c1 hb, ek]
    · rw [if_neg h47, hnum]

theorem mul960_normal (a : F32) (hs : a.sign = false) (hE1 : 1 ≤ a.exponent.val)
    (hE2 : a.exponent.val ≤ 126) :
    toUInt16 (mul a (ofNat 960)) =
      (round960 ((8388608 + a.mantissa.val) * 15728640) * 2 ^ a.exponent.val) / 2 ^ 150 := by
  obtain ⟨k, r, hk, hr1, hr2, he, hnum⟩ := mul960_normal_bits a hs hE1 hE2
  rw [he, toUInt16_ofBits_normal k r hr1 hr2 hk, hnum]

theorem ofBits_exponent_lt (s : Bool) (bits : Nat) (h : bits < 127 * 8388608) :
    (ofBits s bits).exponent.val < 127 := by
  rw [ofBits_exponent]
  omega

/-- The product of a zero or subnormal value with `960.0f` is below 1. -/
theorem mul960_small_exponent (a : F32) (hE : a.exponent.val = 0) :
    (mul a (ofNat 960)).exponent.val < 127 := by
  have hM := a.mantissa.isLt
  rw [f960_eq]
  have anan : a.isNaN = false := by
    unfold isNaN
    simp [hE]
  have ainf : a.isInf = false := by
    unfold isInf
    simp [hE]
  have bnan : (ofBits false 0x44700000).isNaN = false := by decide
  have binf : (ofBits false 0x44700000).isInf = false := by decide
  have bzero : (ofBits false 0x44700000).isZero = false := by decide
  have bsig : (ofBits false 0x44700000).significand = 15728640 := by decide
  have bsc : (ofBits false 0x44700000).scale = 136 := by decide
  unfold mul
  simp only [anan, ainf, bnan, binf, bzero, Bool.or_self, Bool.false_eq_true, if_false,
    Bool.or_false, bsig, bsc]
  by_cases hz : a.isZero = true
  · rw [if_pos hz]
    exact ofBits_exponent_lt _ 0 (by norm_num)
  · rw [if_neg hz]
    have asig : a.significand = a.mantissa.val := by
      unfold significand
      rw [if_pos hE]
    have asc : a.scale = 1 := by
      unfold scale
      rw [if_pos hE]
    rw [asig, asc]
    generalize hn : a.mantissa.val * 15728640 = n
    have hn2 : n < 2 ^ 47 := by
      rw [← hn]
      norm_num
      omega
    have hL := bitLength_le n 47 hn2
    have hnL := lt_two_pow_bitLength n
    by_cases hc : 175 ≤ 1 + 136 + bitLength n
    · have h24 : 24 ≤ bitLength n := by omega
      have hr := roundNE_le n (bitLength n - 24)
      have hdiv : n / 2 ^ (bitLength n - 24) < 16777216 := by
        apply Nat.div_lt_of_lt_mul
        have : 2 ^ (bitLength n - 24) * 16777216 = 2 ^ bitLength n := by
          rw [show (16777216 : Nat) = 2 ^ 24 by norm_num, ← Nat.pow_add]
          congr 1
          omega
        rw [this]
        exact hnL
      have hb : (1 + 136 + bitLength n - 175) * 8388608 + roundNE n (bitLength n - 24) <
          127 * 8388608 := by omega
      rw [round_normal _ n _ (bitLength n) rfl h24 hc (by omega)]
      exact ofBits_exponent_lt _ _ hb
    · rw [round_subnormal _ n _ (by omega) (by norm_num)]
      have hr := roundNE_le n (151 - (1 + 136))
      have hn37 : n < 2 ^ 37 :=
        Nat.lt_of_lt_of_le hnL (Nat.pow_le_pow_right (by norm_num) (by omega))
      have hdiv : n / 2 ^ (151 - (1 + 136)) < 8388608 := by
        apply Nat.div_lt_of_lt_mul
        norm_num at hn37 ⊢
        omega
      exact ofBits_exponent_lt _ _ (by omega)

theorem mul960_small (a : F32) (hE : a.exponent.val = 0) :
    toUInt16 (mul a (ofNat 960)) = 0 :=
  toUInt16_small _ (mul960_small_exponent a hE)

/-- The conversion of the product with `960.0f`, for the values the clamp can leave. -/
theorem mul960_clamped (c : F32) (h1 : c.exponent.val ≤ 126)
    (h2 : c.sign = true → c.exponent.val = 0) :
    toUInt16 (mul c (ofNat 960)) = scale960 c.exponent.val c.mantissa.val := by
  unfold scale960
  by_cases hE : c.exponent.val = 0
  · rw [if_pos hE]
    exact mul960_small c hE
  · rw [if_neg hE]
    have hs : c.sign = false := by
      cases h : c.sign
      · rfl
      · exact absurd (h2 h) hE
    exact mul960_normal c hs (by omega) h1

theorem round960_mono (n1 n2 : Nat) (h : n1 ≤ n2) (h1 : 2 ^ 46 ≤ n1) (h2 : n2 < 2 ^ 48) :
    round960 n1 ≤ round960 n2 := by
  unfold round960 roundNE
  norm_num at h1 h2 ⊢
  split_ifs <;> omega

theorem round960_lower (n : Nat) (h1 : 15728640 * 8388608 ≤ n) (h2 : n < 2 ^ 48) :
    15 * 2 ^ 29 ≤ round960 n := by
  unfold round960 roundNE
  norm_num at h1 h2 ⊢
  split_ifs <;> omega

theorem round960_upper (n : Nat) (h1 : 2 ^ 46 ≤ n) (h2 : n ≤ 15728640 * 16777216) :
    round960 n ≤ 15 * 2 ^ 30 := by
  unfold round960 roundNE
  norm_num at h1 h2 ⊢
  split_ifs <;> omega

theorem scale960_mono (E1 M1 E2 M2 : Nat) (hM1 : M1 < 8388608) (hM2 : M2 < 8388608)
    (h : E1 * 8388608 + M1 ≤ E2 * 8388608 + M2) :
    scale960 E1 M1 ≤ scale960 E2 M2 := by
  unfold scale960
  by_cases h0 : E1 = 0
  · rw [if_pos h0]
    exact Nat.zero_le _
  · have hE : E1 ≤ E2 := by
      by_contra hc
      have : E2 + 1 ≤ E1 := by omega
      have := Nat.mul_le_mul_right 8388608 this
      omega
    rw [if_neg h0, if_neg (by omega)]
    apply Nat.div_le_div_right
    have b1 : 2 ^ 46 ≤ (8388608 + M1) * 15728640 := by norm_num; omega
    have b2 : (8388608 + M2) * 15728640 < 2 ^ 48 := by norm_num; omega
    by_cases he : E1 = E2
    · subst he
      have hM : M1 ≤ M2 := by omega
      apply Nat.mul_le_mul_right
      exact round960_mono _ _ (by omega) b1 b2
    · have hlt : E1 + 1 ≤ E2 := by omega
      have u := round960_upper ((8388608 + M1) * 15728640) b1 (by omega)
      have l := round960_lower ((8388608 + M2) * 15728640) (by omega) b2
      calc round960 ((8388608 + M1) * 15728640) * 2 ^ E1
          ≤ (15 * 2 ^ 30) * 2 ^ E1 := Nat.mul_le_mul_right _ u
        _ = (15 * 2 ^ 29) * 2 ^ (E1 + 1) := by rw [Nat.pow_succ 2 E1]; ring
        _ ≤ (15 * 2 ^ 29) * 2 ^ E2 :=
            Nat.mul_le_mul_left _ (Nat.pow_le_pow_right (by norm_num) hlt)
        _ ≤ round960 ((8388608 + M2) * 15728640) * 2 ^ E2 := Nat.mul_le_mul_right _ l

theorem round_sign (s : Bool) (n e : Nat) : (round s n e).sign = s := by
  unfold round
  simp only
  split
  · split <;> split <;> rfl
  · rfl

theorem mul960_sign (a : F32) (ha : a.exponent.val ≠ 255) :
    (mul a (ofNat 960)).sign = a.sign := by
  rw [f960_eq]
  have anan : a.isNaN = false := by
    unfold isNaN
    simp [ha]
  have ainf : a.isInf = false := by
    unfold isInf
    simp [ha]
  have bnan : (ofBits false 0x44700000).isNaN = false := by decide
  have binf : (ofBits false 0x44700000).isInf = false := by decide
  have bsign : (ofBits false 0x44700000).sign = false := rfl
  unfold mul
  simp only [anan, ainf, bnan, binf, bsign, Bool.or_self, Bool.false_eq_true, if_false,
    Bool.bne_false]
  split
  · rfl
  · exact round_sign _ _ _

theorem mul960_exponent_le (a : F32) (hs : a.sign = false) (hE : a.exponent.val ≤ 126) :
    (mul a (ofNat 960)).exponent.val ≤ 137 := by
  by_cases h0 : a.exponent.val = 0
  · have := mul960_small_exponent a h0
    omega
  · obtain ⟨k, r, hk, hr1, hr2, he, _⟩ := mul960_normal_bits a hs (by omega) hE
    rw [he, ofBits_exponent]
    omega

theorem trunc_lt_of_exponent_le (x : F32) (h : x.exponent.val ≤ 137) :
    x.significand * 2 ^ x.scale / 2 ^ 150 < 65536 := by
  have hsig : x.significand < 16777216 := by
    unfold significand
    have := x.mantissa.isLt
    split <;> omega
  have hsc : x.scale ≤ 137 := by
    unfold scale
    split <;> omega
  apply Nat.div_lt_of_lt_mul
  calc x.significand * 2 ^ x.scale ≤ 16777216 * 2 ^ 137 :=
        Nat.mul_le_mul (Nat.le_of_lt hsig) (Nat.pow_le_pow_right (by norm_num) hsc)
    _ < 2 ^ 150 * 65536 := by norm_num

/-- On a finite non-negative value whose integer part fits 16 bits, `(uint16_t)` is the
floor of the value. -/
theorem toUInt16_eq_floor (x : F32) (hfin : x.exponent.val ≠ 255) (hs : x.sign = false)
    (hlt : x.significand * 2 ^ x.scale / 2 ^ 150 < 65536) :
    (toUInt16 x : Int) = ⌊toRat x⌋ := by
  have hnan : x.isNaN = false := by
    unfold isNaN
    simp [hfin]
  have hinf : x.isInf = false := by
    unfold isInf
    simp [hfin]
  have h1 : toUInt16 x = x.significand * 2 ^ x.scale / 2 ^ 150 := by
    unfold toUInt16
    simp only [hnan, hinf, hs, Bool.or_self, Bool.false_eq_true, if_false]
    rw [if_neg (by omega)]
  have h2 : toRat x = ((x.significand * 2 ^ x.scale : Nat) : ℚ) / ((2 ^ 150 : Nat) : ℚ) := by
    unfold toRat
    rw [hs]
    simp only [Bool.false_eq_true, if_false, one_mul]
    rw [zpow_sub₀ (by norm_num : (2 : ℚ) ≠ 0)]
    push_cast
    rw [zpow_natCast]
    norm_num
    ring
  rw [h1, h2, ← Int.cast_natCast (x.significand * 2 ^ x.scale), Rat.floor_intCast_div_natCast]
  push_cast
  rfl

/-- For a finite value below 1 that is non-negative or minus zero, the conversion of the
product with `960.0f` is the floor of that product. -/
theorem mul960_floor (c : F32) (h1 : c.exponent.val ≤ 126)
    (h2 : c.sign = true → c.magnitude = 0) :
    (toUInt16 (mul c (ofNat 960)) : Int) = ⌊toRat (mul c (ofNat 960))⌋ := by
  cases hs : c.sign
  · have he := mul960_exponent_le c hs h1
    have hsx : (mul c (ofNat 960)).sign = false := by
      rw [mul960_sign c (by omega), hs]
    exact toUInt16_eq_floor _ (by omega) hsx (trunc_lt_of_exponent_le _ he)
  · have hm := h2 hs
    have hmd : c.magnitude = c.exponent.val * 8388608 + c.mantissa.val := rfl
    have hz : c.isZero = true := by
      unfold isZero
      have e1 : c.exponent.val = 0 := by omega
      have e2 : c.mantissa.val = 0 := by omega
      simp [e1, e2]
    have hx : mul c (ofNat 960) = zero true := by
      rw [f960_eq]
      have anan : c.isNaN = false := by
        unfold isNaN
        have : ¬ c.exponent.val = 255 := by omega
        simp [this]
      have ainf : c.isInf = false := by
        unfold isInf
        have : ¬ c.exponent.val = 255 := by omega
        simp [this]
      have bnan : (ofBits false 0x44700000).isNaN = false := by decide
      have binf : (ofBits false 0x44700000).isInf = false := by decide
      have bsign : (ofBits false 0x44700000).sign = false := rfl
      unfold mul
      simp only [anan, ainf, bnan, binf, bsign, hz, hs, Bool.or_self, Bool.false_eq_true,
        if_false, Bool.true_or, if_true, Bool.bne_false]
    rw [hx]
    have t0 : toUInt16 (zero true) = 0 := by decide
    have r0 : toRat (zero true) = 0 := by
      unfold toRat
      have : (zero true).significand = 0 := by decide
      rw [this]
      simp
    rw [t0, r0]
    simp

end F32

theorem f0_999_fields : f0_999.isNaN = false ∧ f0_999.key = 1065336439 ∧
    f0_999.exponent.val = 126 ∧ f0_999.mantissa.val = 8371831 ∧ f0_999.sign = false ∧
    f0_999.magnitude = 1065336439 := by decide

theorem zero_fields : (F32.zero false).isNaN = false ∧ (F32.zero false).key = 0 ∧
    (F32.zero false).exponent.val = 0 ∧ (F32.zero false).mantissa.val = 0 ∧
    (F32.zero false).sign = false ∧ (F32.zero false).magnitude = 0 := by decide

theorem lt_zero_iff (p : F32) (hp : p.isNaN = false) :
    F32.lt p (F32.zero false) = decide (p.key < 0) := by
  unfold F32.lt
  rw [hp, zero_fields.1, zero_fields.2.1]
  simp

theorem lt_f0_999_iff (p : F32) (hp : p.isNaN = false) :
    F32.lt f0_999 p = decide (1065336439 < p.key) := by
  unfold F32.lt
  rw [hp, f0_999_fields.1, f0_999_fields.2.1]
  simp

/-- What the clamp leaves for a throttle that is not NaN: a non-negative value of
magnitude at most that of `0.999f`. -/
theorem pwm_clamp_spec (p : F32) (hp : p.isNaN = false) :
    (pwm_clamp p).exponent.val ≤ 126 ∧
    ((pwm_clamp p).sign = true → (pwm_clamp p).magnitude = 0) ∧
    ((pwm_clamp p).magnitude : Int) = min (max p.key 0) 1065336439 := by
  have hM := p.mantissa.isLt
  unfold pwm_clamp
  simp only [lt_zero_iff p hp, decide_eq_true_eq]
  by_cases hneg : p.key < 0
  · rw [if_pos hneg]
    have : F32.lt f0_999 (F32.zero false) = false := by decide
    rw [this]
    simp only [Bool.false_eq_true, if_false]
    rw [zero_fields.2.2.1, zero_fields.2.2.2.2.2]
    refine ⟨by omega, fun _ => rfl, ?_⟩
    omega
  · rw [if_neg hneg, lt_f0_999_iff p hp]
    simp only [decide_eq_true_eq]
    by_cases hbig : 1065336439 < p.key
    · rw [if_pos hbig, f0_999_fields.2.2.1, f0_999_fields.2.2.2.2.2, f0_999_fields.2.2.2.2.1]
      refine ⟨by omega, fun h => by simp at h, ?_⟩
      omega
    · rw [if_neg hbig]
      have hk : p.key = if p.sign then - (p.magnitude : Int) else (p.magnitude : Int) := rfl
      have hm : p.magnitude = p.exponent.val * 8388608 + p.mantissa.val := rfl
      cases hs : p.sign
      · rw [hs] at hk
        simp only [Bool.false_eq_true, if_false] at hk
        refine ⟨by omega, fun h => by simp at h, by omega⟩
      · rw [hs] at hk
        simp only [if_true] at hk
        refine ⟨by omega, fun _ => by omega, by omega⟩

theorem pwm_clamp_nan (p : F32) (hp : p.isNaN = true) : pwm_clamp p = p := by
  unfold pwm_clamp F32.lt
  simp [hp]

theorem mul_nan (p b : F32) (hp : p.isNaN = true) : F32.toUInt16 (F32.mul p b) = 0 := by
  unfold F32.mul
  simp only [hp, Bool.true_or, if_true]
  decide

/-- The scaled throttle `(uint16_t)( pwm * 960 )` of a clamped throttle, as a function of
the magnitude the clamp leaves. -/
theorem scaled_clamp_eq (p : F32) (hp : p.isNaN = false) :
    F32.toUInt16 (F32.mul (pwm_clamp p) (F32.ofNat 960)) =
      F32.scale960 (pwm_clamp p).exponent.val (pwm_clamp p).mantissa.val := by
  obtain ⟨h1, h2, _⟩ := pwm_clamp_spec p hp
  have hm : (pwm_clamp p).magnitude =
      (pwm_clamp p).exponent.val * 8388608 + (pwm_clamp p).mantissa.val := rfl
  exact F32.mul960_clamped _ h1 (fun h => by have := h2 h; omega)

/-- For a throttle that is not NaN, `(uint16_t)( pwm * 960 )` is the floor of the `float`
product of the clamped throttle with 960. -/
theorem scaled_clamp_floor (p : F32) (hp : p.isNaN = false) :
    (F32.toUInt16 (F32.mul (pwm_clamp p) (F32.ofNat 960)) : Int) =
      ⌊F32.toRat (F32.mul (pwm_clamp p) (F32.ofNat 960))⌋ := by
  obtain ⟨h1, h2, _⟩ := pwm_clamp_spec p hp
  exact F32.mul960_floor _ h1 h2

theorem scale960_top : F32.scale960 126 8371831 = 959 := by decide

theorem scaled_clamp_le (p : F32) :
    F32.toUInt16 (F32.mul (pwm_clamp p) (F32.ofNat 960)) ≤ 959 := by
  cases hp : p.isNaN
  · rw [scaled_clamp_eq p hp, ← scale960_top]
    obtain ⟨_, _, h3⟩ := pwm_clamp_spec p hp
    have hm : (pwm_clamp p).magnitude =
        (pwm_clamp p).exponent.val * 8388608 + (pwm_clamp p).mantissa.val := rfl
    apply F32.scale960_mono _ _ _ _ (pwm_clamp p).mantissa.isLt (by norm_num)
    omega
  · rw [pwm_clamp_nan p hp, mul_nan p _ hp]
    exact Nat.zero_le _

theorem scaled_clamp_mono (p1 p2 : F32) (h : F32.le p1 p2 = true) :
    F32.toUInt16 (F32.mul (pwm_clamp p1) (F32.ofNat 960)) ≤
      F32.toUInt16 (F32.mul (pwm_clamp p2) (F32.ofNat 960)) := by
  unfold F32.le at h
  simp only [Bool.and_eq_true, Bool.not_eq_true', decide_eq_true_eq] at h
  obtain ⟨⟨n1, n2⟩, hk⟩ := h
  rw [scaled_clamp_eq p1 n1, scaled_clamp_eq p2 n2]
  obtain ⟨_, _, a3⟩ := pwm_clamp_spec p1 n1
  obtain ⟨_, _, b3⟩ := pwm_clamp_spec p2 n2
  have hm1 : (pwm_clamp p1).magnitude =
      (pwm_clamp p1).exponent.val * 8388608 + (pwm_clamp p1).mantissa.val := rfl
  have hm2 : (pwm_clamp p2).magnitude =
      (pwm_clamp p2).exponent.val * 8388608 + (pwm_clamp p2).mantissa.val := rfl
  apply F32.scale960_mono _ _ _ _ (pwm_clamp p1).mantissa.isLt (pwm_clamp p2).mantissa.isLt
  omega

theorem scaled_clamp_low (p : F32) (h : F32.le p (F32.zero false) = true) :
    F32.toUInt16 (F32.mul (pwm_clamp p) (F32.ofNat 960)) = 0 := by
  unfold F32.le at h
  simp only [Bool.and_eq_true, Bool.not_eq_true', decide_eq_true_eq] at h
  obtain ⟨⟨n1, _⟩, hk⟩ := h
  rw [zero_fields.2.1] at hk
  rw [scaled_clamp_eq p n1]
  obtain ⟨_, _, a3⟩ := pwm_clamp_spec p n1
  have hm1 : (pwm_clamp p).magnitude =
      (pwm_clamp p).exponent.val * 8388608 + (pwm_clamp p).mantissa.val := rfl
  have : (pwm_clamp p).exponent.val = 0 := by omega
  unfold F32.scale960
  rw [if_pos this]

theorem scaled_clamp_high (p : F32) (h : F32.le f0_999 p = true) :
    F32.toUInt16 (F32.mul (pwm_clamp p) (F32.ofNat 960)) = 959 := by
  unfold F32.le at h
  simp only [Bool.and_eq_true, Bool.not_eq_true', decide_eq_true_eq] at h
  obtain ⟨⟨_, n1⟩, hk⟩ := h
  rw [f0_999_fields.2.1] at hk
  rw [scaled_clamp_eq p n1]
  obtain ⟨_, _, a3⟩ := pwm_clamp_spec p n1
  have hm1 : (pwm_clamp p).magnitude =
      (pwm_clamp p).exponent.val * 8388608 + (pwm_clamp p).mantissa.val := rfl
  have hM := (pwm_clamp p).mantissa.isLt
  have e1 : (pwm_clamp p).exponent.val = 126 := by omega
  have e2 : (pwm_clamp p).mantissa.val = 8371831 := by omega
  rw [e1, e2]
  exact scale960_top

theorem pwm_set_value_normal (cfg : Config) (env : Env) (pwm : F32) (g : Globals)
    (hg : env.onground = 0) (hf : env.failsafe = 0) :
    pwm_set_value cfg env pwm g = pwm_map cfg g.pwmdir (pwm_clamp pwm) := by
  unfold pwm_set_value
  simp [hg, hf]

theorem pwm_map_forward (cfg : Config) (pwmdir : Int) (pwm : F32)
    (hb : cfg.BIDIRECTIONAL = true) (hd : pwmdir = cfg.FORWARD) :
    pwm_map cfg pwmdir (pwm_clamp pwm) =
      88 + F32.toUInt16 (F32.mul (pwm_clamp pwm) (F32.ofNat 960)) := by
  have hle := scaled_clamp_le pwm
  unfold pwm_map
  rw [if_pos hb, if_pos hd]
  show (88 + F32.toUInt16 (F32.mul (pwm_clamp pwm) (F32.ofNat 960))) % 65536 = _
  omega

theorem pwm_map_reverse (cfg : Config) (pwmdir : Int) (pwm : F32)
    (hb : cfg.BIDIRECTIONAL = true) (hd : pwmdir ≠ cfg.FORWARD) (hr : pwmdir = cfg.REVERSE) :
    pwm_map cfg pwmdir (pwm_clamp pwm) =
      1088 + F32.toUInt16 (F32.mul (pwm_clamp pwm) (F32.ofNat 960)) := by
  have hle := scaled_clamp_le pwm
  unfold pwm_map
  rw [if_pos hb, if_neg hd, if_pos hr]
  show (1088 + F32.toUInt16 (F32.mul (pwm_clamp pwm) (F32.ofNat 960))) % 65536 = _
  omega

theorem pwm_clamp_below (p : F32) (h : F32.lt p (F32.zero false) = true) :
    pwm_clamp p = F32.zero false := by
  unfold pwm_clamp
  rw [if_pos h]
  have : F32.lt f0_999 (F32.zero false) = false := by decide
  simp only [this, Bool.false_eq_true, if_false]

theorem pwm_clamp_above (p : F32) (h : F32.lt f0_999 p = true) : pwm_clamp p = f0_999 := by
  have hp : p.isNaN = false := by
    unfold F32.lt at h
    simp only [Bool.and_eq_true, Bool.not_eq_true'] at h
    exact h.1.2
  have h' := h
  rw [lt_f0_999_iff p hp] at h'
  simp only [decide_eq_true_eq] at h'
  unfold pwm_clamp
  have : F32.lt p (F32.zero false) = false := by
    rw [lt_zero_iff p hp]
    simp only [decide_eq_false_iff_not]
    omega
  rw [this]
  simp only [Bool.false_eq_true, if_false]
  rw [if_pos h]

namespace F32

set_option maxHeartbeats 4000000 in
/-- The integer part of the rounded product, for a significand product `a` and a shift `d`
that leave an integer part below 960: the exact quotient, plus one when `a / 2 ^ d` is
within half a unit in the last place of the next integer. -/
theorem round960_floor (a d : Nat) (hd1 : 24 ≤ d) (hd2 : d ≤ 33)
    (h1 : 960 * 8388608 ≤ a) (h2 : a < 960 * 16777216) :
    round960 (a * 16384) / 2 ^ d =
      a / 2 ^ d + (if (a / 2 ^ d + 1) * 2 ^ d * 2 ^ 25 ≤
        a * 2 ^ 25 + 2 ^ (if a < 2 ^ 33 then 33 - d else 34 - d) * 2 ^ d then 1 else 0) := by
  unfold round960 roundNE
  interval_cases d <;> norm_num <;> split_ifs <;> omega

end F32

theorem log_div_two_pow (a d L : Nat) (h1 : 2 ^ L ≤ a) (h2 : a < 2 ^ (L + 1)) :
    Int.log 2 ((a : ℚ) / (2 : ℚ) ^ d) = (L : Int) - d := by
  have p1 : (0 : ℚ) < (2 : ℚ) ^ d := by positivity
  have ha : (0 : ℚ) < (a : ℚ) := by
    have : 0 < a := lt_of_lt_of_le (by positivity) h1
    exact_mod_cast this
  have hq : (0 : ℚ) < (a : ℚ) / (2 : ℚ) ^ d := div_pos ha p1
  have c1 : ((2 ^ L : Nat) : ℚ) ≤ (a : ℚ) := by exact_mod_cast h1
  have c2 : (a : ℚ) < ((2 ^ (L + 1) : Nat) : ℚ) := by exact_mod_cast h2
  push_cast at c1 c2
  have l1 : (L : Int) - d ≤ Int.log 2 ((a : ℚ) / (2 : ℚ) ^ d) := by
    rw [← Int.zpow_le_iff_le_log (by norm_num) hq, Nat.cast_ofNat,
      zpow_sub₀ (by norm_num : (2 : ℚ) ≠ 0), zpow_natCast, zpow_natCast]
    exact div_le_div_of_nonneg_right c1 (le_of_lt p1)
  have l2 : Int.log 2 ((a : ℚ) / (2 : ℚ) ^ d) < (L : Int) + 1 - d := by
    rw [← Int.lt_zpow_iff_log_lt (by norm_num) hq, Nat.cast_ofNat,
      zpow_sub₀ (by norm_num : (2 : ℚ) ≠ 0), zpow_natCast]
    have e : (2 : ℚ) ^ ((L : Int) + 1) = (2 : ℚ) ^ (L + 1) := by
      rw [← zpow_natCast]
      push_cast
      rfl
    rw [e]
    exact div_lt_div_of_pos_right c2 p1
  omega

theorem half_spacing_iff (a k b d : Nat) :
    ((k : ℚ) + 1 ≤ (a : ℚ) / (2 : ℚ) ^ d + (2 : ℚ) ^ b / (2 : ℚ) ^ 25) ↔
      ((k + 1) * 2 ^ d * 2 ^ 25 ≤ a * 2 ^ 25 + 2 ^ b * 2 ^ d) := by
  have p1 : (0 : ℚ) < (2 : ℚ) ^ d := by positivity
  have p2 : (0 : ℚ) < (2 : ℚ) ^ 25 := by positivity
  rw [div_add_div _ _ (ne_of_gt p1) (ne_of_gt p2), le_div_iff₀ (mul_pos p1 p2)]
  have hc : (((k + 1) * 2 ^ d * 2 ^ 25 : Nat) : ℚ) ≤ ((a * 2 ^ 25 + 2 ^ b * 2 ^ d : Nat) : ℚ) ↔
      ((k + 1) * 2 ^ d * 2 ^ 25 ≤ a * 2 ^ 25 + 2 ^ b * 2 ^ d) := Nat.cast_le
  rw [← hc]
  push_cast
  constructor <;> intro h <;> linarith

theorem floor_div_two_pow (a d : Nat) : ⌊(a : ℚ) / (2 : ℚ) ^ d⌋ = ((a / 2 ^ d : Nat) : Int) := by
  have := Rat.floor_natCast_div_natCast a (2 ^ d)
  push_cast at this ⊢
  exact this

/-- The notion `spec_round_floor` on a quotient `a / 2 ^ d` whose leading bit is bit `L`
of `a`, in integer arithmetic; `b` is `L + 1 - d`. -/
theorem spec_round_floor_div (a d L b : Nat) (h1 : 2 ^ L ≤ a) (h2 : a < 2 ^ (L + 1))
    (hb : b + d = L + 1) :
    spec_round_floor ((a : ℚ) / (2 : ℚ) ^ d) =
      ((a / 2 ^ d : Nat) : Int) +
        (if (a / 2 ^ d + 1) * 2 ^ d * 2 ^ 25 ≤ a * 2 ^ 25 + 2 ^ b * 2 ^ d then 1 else 0) := by
  unfold spec_round_floor
  rw [floor_div_two_pow, log_div_two_pow a d L h1 h2]
  congr 1
  have hz : (2 : ℚ) ^ ((L : Int) - d - 24) = (2 : ℚ) ^ b / (2 : ℚ) ^ 25 := by
    have e : (L : Int) - d - 24 = (b : Int) - ((25 : Nat) : Int) := by
      push_cast
      omega
    rw [e, zpow_sub₀ (by norm_num : (2 : ℚ) ≠ 0), zpow_natCast, zpow_natCast]
  rw [hz, Int.cast_natCast]
  have hiff := half_spacing_iff a (a / 2 ^ d) b d
  by_cases hc : (a / 2 ^ d + 1) * 2 ^ d * 2 ^ 25 ≤ a * 2 ^ 25 + 2 ^ b * 2 ^ d
  · rw [if_pos hc, if_pos (hiff.2 hc)]
  · rw [if_neg hc, if_neg (fun h => hc (hiff.1 h))]

/-- The notion `spec_round_floor` is 0 on the products below `15 / 16`. -/
theorem spec_round_floor_small (a d : Nat) (ha : a ≤ 960 * 16777216) (hd : 34 ≤ d) :
    spec_round_floor ((a : ℚ) / (2 : ℚ) ^ d) = 0 := by
  have hp : 2 ^ 34 ≤ 2 ^ d := Nat.pow_le_pow_right (by norm_num) hd
  have p1 : (0 : ℚ) < (2 : ℚ) ^ d := by positivity
  have hq0 : (0 : ℚ) ≤ (a : ℚ) / (2 : ℚ) ^ d := by positivity
  have hq1 : (a : ℚ) / (2 : ℚ) ^ d ≤ 15 / 16 := by
    rw [div_le_iff₀ p1]
    have c1 : (a : ℚ) ≤ ((960 * 16777216 : Nat) : ℚ) := by exact_mod_cast ha
    have c2 : ((2 ^ 34 : Nat) : ℚ) ≤ ((2 ^ d : Nat) : ℚ) := by exact_mod_cast hp
    push_cast at c1 c2
    linarith
  have hfl : ⌊(a : ℚ) / (2 : ℚ) ^ d⌋ = 0 := by
    rw [Int.floor_eq_zero_iff]
    exact ⟨hq0, by linarith⟩
  have hlog : Int.log 2 ((a : ℚ) / (2 : ℚ) ^ d) ≤ 0 := by
    rw [Int.log_of_right_le_one 2 (by linarith)]
    omega
  have hz : (2 : ℚ) ^ (Int.log 2 ((a : ℚ) / (2 : ℚ) ^ d) - 24) ≤ 1 / 16777216 := by
    calc (2 : ℚ) ^ (Int.log 2 ((a : ℚ) / (2 : ℚ) ^ d) - 24)
        ≤ (2 : ℚ) ^ (-24 : Int) := zpow_le_zpow_right₀ (by norm_num) (by omega)
      _ = 1 / 16777216 := by norm_num
  unfold spec_round_floor
  rw [hfl, if_neg]
  · rfl
  · push_cast
    intro h
    linarith

namespace F32

theorem scale960_div (E M : Nat) (hE0 : E ≠ 0) (hE : E ≤ 150) :
    scale960 E M = round960 ((8388608 + M) * 15728640) / 2 ^ (150 - E) := by
  unfold scale960
  rw [if_neg hE0]
  have h : 2 ^ 150 = 2 ^ (150 - E) * 2 ^ E := by
    rw [← Nat.pow_add]
    congr 1
    omega
  rw [h]
  exact Nat.mul_div_mul_right _ _ (by positivity)

theorem scale960_small (E M : Nat) (hM : M < 8388608) (hE : E ≤ 116) : scale960 E M = 0 := by
  by_cases hE0 : E = 0
  · unfold scale960
    rw [if_pos hE0]
  · rw [scale960_div E M hE0 (by omega)]
    apply Nat.div_eq_of_lt
    have u := round960_upper ((8388608 + M) * 15728640) (by norm_num; omega) (by omega)
    have hp : 2 ^ 34 ≤ 2 ^ (150 - E) := Nat.pow_le_pow_right (by norm_num) (by omega)
    norm_num at u hp ⊢
    omega

end F32

/-- The scaled throttle of a normal value below 1, in terms of the exact product of 960
and the value `(2 ^ 23 + M) / 2 ^ (150 - E)`. -/
theorem scale960_eq_spec (E M : Nat) (hM : M < 8388608) (hE0 : E ≠ 0) (hE : E ≤ 126) :
    (F32.scale960 E M : Int) =
      spec_round_floor (((960 * (8388608 + M) : Nat) : ℚ) / (2 : ℚ) ^ (150 - E)) := by
  by_cases hs : E ≤ 116
  · rw [F32.scale960_small E M hM hs, spec_round_floor_small _ _ (by omega) (by omega)]
    rfl
  · have hd1 : 24 ≤ 150 - E := by omega
    have hd2 : 150 - E ≤ 33 := by omega
    have ha1 : 960 * 8388608 ≤ 960 * (8388608 + M) := by omega
    have ha2 : 960 * (8388608 + M) < 960 * 16777216 := by omega
    have hn : (8388608 + M) * 15728640 = 960 * (8388608 + M) * 16384 := by ring
    rw [F32.scale960_div E M hE0 (by omega), hn, F32.round960_floor _ _ hd1 hd2 ha1 ha2]
    by_cases h33 : 960 * (8388608 + M) < 2 ^ 33
    · rw [if_pos h33, spec_round_floor_div _ _ 32 (33 - (150 - E)) (by norm_num; omega)
        (by norm_num at h33 ⊢; omega) (by omega),
        Nat.cast_add, Nat.cast_ite, Nat.cast_one, Nat.cast_zero]
    · rw [if_neg h33, spec_round_floor_div _ _ 33 (34 - (150 - E)) (by norm_num at h33 ⊢; omega)
        (by norm_num; omega) (by omega),
        Nat.cast_add, Nat.cast_ite, Nat.cast_one, Nat.cast_zero]

theorem toRat_nonneg (c : F32) (hs : c.sign = false) (h : c.scale ≤ 150) :
    960 * F32.toRat c = ((960 * c.significand : Nat) : ℚ) / (2 : ℚ) ^ (150 - c.scale) := by
  unfold F32.toRat
  rw [hs]
  simp only [Bool.false_eq_true, if_false, one_mul]
  have hz : (2 : ℚ) ^ ((c.scale : Int) - 150) = 1 / (2 : ℚ) ^ (150 - c.scale) := by
    have e : (c.scale : Int) - 150 = - ((150 - c.scale : Nat) : Int) := by omega
    rw [e, zpow_neg, zpow_natCast, one_div]
  rw [hz]
  push_cast
  ring

/-- For a throttle that is not NaN, `(uint16_t)( pwm * 960 )` in terms of the exact
product of the clamped throttle with 960. -/
theorem scaled_clamp_spec (p : F32) (hp : p.isNaN = false) :
    (F32.toUInt16 (F32.mul (pwm_clamp p) (F32.ofNat 960)) : Int) =
      spec_round_floor (960 * F32.toRat (pwm_clamp p)) := by
  rw [scaled_clamp_eq p hp]
  obtain ⟨h1, h2, _⟩ := pwm_clamp_spec p hp
  generalize pwm_clamp p = c at h1 h2
  have hM := c.mantissa.isLt
  have hm : c.magnitude = c.exponent.val * 8388608 + c.mantissa.val := rfl
  cases hs : c.sign
  · by_cases hE0 : c.exponent.val = 0
    · have hsc : c.scale = 1 := by
        unfold F32.scale
        rw [if_pos hE0]
      have hsg : c.significand = c.mantissa.val := by
        unfold F32.significand
        rw [if_pos hE0]
      rw [toRat_nonneg c hs (by omega), hsc, hsg, hE0,
        spec_round_floor_small _ _ (by omega) (by norm_num)]
      rfl
    · have hsc : c.scale = c.exponent.val := by
        unfold F32.scale
        rw [if_neg hE0]
      have hsg : c.significand = 8388608 + c.mantissa.val := by
        unfold F32.significand
        rw [if_neg hE0]
      rw [toRat_nonneg c hs (by omega), hsc, hsg]
      exact scale960_eq_spec _ _ hM hE0 h1
  · have hz := h2 hs
    have e1 : c.exponent.val = 0 := by omega
    have e2 : c.mantissa.val = 0 := by omega
    have hsg : c.significand = 0 := by
      unfold F32.significand
      rw [if_pos e1, e2]
    have hq : 960 * F32.toRat c = ((0 : Nat) : ℚ) / (2 : ℚ) ^ 34 := by
      unfold F32.toRat
      rw [hsg]
      simp
    rw [hq, e1, spec_round_floor_small 0 34 (by norm_num) (by norm_num)]
    rfl

/-- Values of `spec_round_floor`: half throttle, the two neighbouring throttles
`8982800 / 2 ^ 24` and `8982801 / 2 ^ 24` on either side of a rounding boundary, and the
two neighbouring throttles `8947848 / 2 ^ 33` and `8947849 / 2 ^ 33` either side of the
boundary below 1. -/
theorem spec_round_floor_examples :
    spec_round_floor (960 * (1 / 2)) = 480 ∧
    spec_round_floor (960 * (8982800 / 16777216)) = 513 ∧
    spec_round_floor (960 * (8982801 / 16777216)) = 514 ∧
    spec_round_floor (960 * (8947848 / 8589934592)) = 0 ∧
    spec_round_floor (960 * (8947849 / 8589934592)) = 1 := by
  have e1 : (960 : ℚ) * (1 / 2) = ((960 * 8388608 : Nat) : ℚ) / (2 : ℚ) ^ 24 := by norm_num
  have e2 : (960 : ℚ) * (8982800 / 16777216) =
      ((960 * 8982800 : Nat) : ℚ) / (2 : ℚ) ^ 24 := by norm_num
  have e3 : (960 : ℚ) * (8982801 / 16777216) =
      ((960 * 8982801 : Nat) : ℚ) / (2 : ℚ) ^ 24 := by norm_num
  have e4 : (960 : ℚ) * (8947848 / 8589934592) =
      ((960 * 8947848 : Nat) : ℚ) / (2 : ℚ) ^ 33 := by norm_num
  have e5 : (960 : ℚ) * (8947849 / 8589934592) =
      ((960 * 8947849 : Nat) : ℚ) / (2 : ℚ) ^ 33 := by norm_num
  rw [e1, e2, e3, e4, e5,
    spec_round_floor_div _ 24 32 9 (by norm_num) (by norm_num) rfl,
    spec_round_floor_div _ 24 33 10 (by norm_num) (by norm_num) rfl,
    spec_round_floor_div _ 24 33 10 (by norm_num) (by norm_num) rfl,
    spec_round_floor_div _ 33 32 0 (by norm_num) (by norm_num) rfl,
    spec_round_floor_div _ 33 33 1 (by norm_num) (by norm_num) rfl]
  decide

theorem pwm_clamp_between (p : F32) (h1 : F32.lt p (F32.zero false) = false)
    (h2 : F32.lt f0_999 p = false) : pwm_clamp p = p := by
  unfold pwm_clamp
  simp only [h1, Bool.false_eq_true, if_false, h2]

theorem toRat_f0_999 : F32.toRat f0_999 = 16760439 / 16777216 := by
  have h1 : f0_999.sign = false := rfl
  have h2 : f0_999.significand = 16760439 := by decide
  have h3 : f0_999.scale = 126 := by decide
  unfold F32.toRat
  rw [h1, h2, h3]
  norm_num

theorem toRat_0x3F091111 :
    F32.toRat (pwm_clamp (F32.ofBits false 0x3F091111)) = 8982801 / 16777216 := by
  have h0 : pwm_clamp (F32.ofBits false 0x3F091111) = F32.ofBits false 0x3F091111 := by decide
  have h1 : (F32.ofBits false 0x3F091111).sign = false := rfl
  have h2 : (F32.ofBits false 0x3F091111).significand = 8982801 := by decide
  have h3 : (F32.ofBits false 0x3F091111).scale = 126 := by decide
  rw [h0]
  unfold F32.toRat
  rw [h1, h2, h3]
  norm_num

theorem floor_0x3F091111 : ⌊(960 : ℚ) * (8982801 / 16777216)⌋ = 513 := by
  rw [Int.floor_eq_iff]
  constructor <;> norm_num

/-- Counterexample to claim C8 as stated: the value is not always 88 plus the floor of the
exact product `960 * clamp(p)`. In bidirectional mode, direction FORWARD, not on ground and
without failsafe, for the throttle with bit pattern `0x3F091111`, i.e. `8982801 / 2 ^ 24`,
which the clamp leaves unchanged, `pwm_set` encodes 602, while
`88 + floor(960 * 8982801 / 2 ^ 24)` is 601: the exact product is `514 - 2 ^ (-18)`, and
the `float` multiplication rounds it to 514 before `(uint16_t)` truncates it. -/
theorem pwm_set_value_above_exact_floor :
    (⟨true, false, 0, 1⟩ : Config).BIDIRECTIONAL = true ∧ IDLE_OFFSET = 40 ∧
    (⟨0, 0, 5000⟩ : Env).onground = 0 ∧ (⟨0, 0, 5000⟩ : Env).failsafe = 0 ∧
    initial_globals.pwmdir = (⟨true, false, 0, 1⟩ : Config).FORWARD ∧
    (F32.ofBits false 0x3F091111).isNaN = false ∧
    F32.toRat (pwm_clamp (F32.ofBits false 0x3F091111)) = 8982801 / 16777216 ∧
    pwm_set_value ⟨true, false, 0, 1⟩ ⟨0, 0, 5000⟩ (F32.ofBits false 0x3F091111)
      initial_globals = 602 ∧
    88 + ⌊(960 : ℚ) * F32.toRat (pwm_clamp (F32.ofBits false 0x3F091111))⌋ = 601 ∧
    ((pwm_set_value ⟨true, false, 0, 1⟩ ⟨0, 0, 5000⟩ (F32.ofBits false 0x3F091111)
      initial_globals : Nat) : Int) ≠
      88 + ⌊(960 : ℚ) * F32.toRat (pwm_clamp (F32.ofBits false 0x3F091111))⌋ := by
  have hv : pwm_set_value ⟨true, false, 0, 1⟩ ⟨0, 0, 5000⟩ (F32.ofBits false 0x3F091111)
      initial_globals = 602 := by decide
  refine ⟨rfl, rfl, rfl, rfl, rfl, by decide, toRat_0x3F091111, hv, ?_, ?_⟩
  · rw [toRat_0x3F091111, floor_0x3F091111]
    rfl
  · rw [hv, toRat_0x3F091111, floor_0x3F091111]
    decide

/-- Claim C8, amended: in bidirectional mode with `IDLE_OFFSET` 40, not on ground and
without failsafe, for every throttle input `p` that is a number (inputs below 0 and above
0.999 being clamped to 0 and to `0.999f`, which is `16760439 / 2 ^ 24`) the value `pwm_set`
encodes is `88 + r` when the direction is FORWARD and `1088 + r` when it is REVERSE, where
`r` is the floor of the exact product `960 * clamp(p)`, plus one when that product lies
within half a binary32 unit in the last place below the next integer; for every input,
FORWARD values lie in 88..1047 and REVERSE values in 1088..2047, the lower bound being
reached for `p <= 0` and the upper bound for `p >= 0.999`. -/
theorem pwm_set_value_bidirectional (cfg : Config) (env : Env) (pwm : F32) (g : Globals)
    (hb : cfg.BIDIRECTIONAL = true) (hdir : cfg.FORWARD ≠ cfg.REVERSE)
    (hg : env.onground = 0) (hf : env.failsafe = 0) :
    IDLE_OFFSET = 40 ∧
    (F32.lt pwm (F32.zero false) = true → pwm_clamp pwm = F32.zero false) ∧
    (F32.lt f0_999 pwm = true → pwm_clamp pwm = f0_999) ∧
    (F32.lt pwm (F32.zero false) = false → F32.lt f0_999 pwm = false → pwm_clamp pwm = pwm) ∧
    F32.toRat (F32.zero false) = 0 ∧ F32.toRat f0_999 = 16760439 / 16777216 ∧
    (g.pwmdir = cfg.FORWARD →
      (pwm.isNaN = false →
        (pwm_set_value cfg env pwm g : Int) =
          88 + spec_round_floor (960 * F32.toRat (pwm_clamp pwm))) ∧
      88 ≤ pwm_set_value cfg env pwm g ∧ pwm_set_value cfg env pwm g ≤ 1047 ∧
      (F32.le pwm (F32.zero false) = true → pwm_set_value cfg env pwm g = 88) ∧
      (F32.le f0_999 pwm = true → pwm_set_value cfg env pwm g = 1047)) ∧
    (g.pwmdir = cfg.REVERSE →
      (pwm.isNaN = false →
        (pwm_set_value cfg env pwm g : Int) =
          1088 + spec_round_floor (960 * F32.toRat (pwm_clamp pwm))) ∧
      1088 ≤ pwm_set_value cfg env pwm g ∧ pwm_set_value cfg env pwm g ≤ 2047 ∧
      (F32.le pwm (F32.zero false) = true → pwm_set_value cfg env pwm g = 1088) ∧
      (F32.le f0_999 pwm = true → pwm_set_value cfg env pwm g = 2047)) := by
  have hle := scaled_clamp_le pwm
  have hz : F32.toRat (F32.zero false) = 0 := by
    have : (F32.zero false).significand = 0 := by decide
    unfold F32.toRat
    rw [this]
    simp
  refine ⟨rfl, pwm_clamp_below pwm, pwm_clamp_above pwm, pwm_clamp_between pwm, hz,
    toRat_f0_999, ?_, ?_⟩
  · intro hd
    have e : pwm_set_value cfg env pwm g =
        88 + F32.toUInt16 (F32.mul (pwm_clamp pwm) (F32.ofNat 960)) := by
      rw [pwm_set_value_normal cfg env pwm g hg hf, pwm_map_forward cfg _ pwm hb hd]
    refine ⟨?_, by omega, by omega, ?_, ?_⟩
    · intro hp
      rw [e, Nat.cast_add, scaled_clamp_spec pwm hp]
      rfl
    · intro h
      rw [e, scaled_clamp_low pwm h]
    · intro h
      rw [e, scaled_clamp_high pwm h]
  · intro hr
    have hd : g.pwmdir ≠ cfg.FORWARD := by
      rw [hr]
      exact fun h => hdir h.symm
    have e : pwm_set_value cfg env pwm g =
        1088 + F32.toUInt16 (F32.mul (pwm_clamp pwm) (F32.ofNat 960)) := by
      rw [pwm_set_value_normal cfg env pwm g hg hf, pwm_map_reverse cfg _ pwm hb hd hr]
    refine ⟨?_, by omega, by omega, ?_, ?_⟩
    · intro hp
      rw [e, Nat.cast_add, scaled_clamp_spec pwm hp]
      rfl
    · intro h
      rw [e, scaled_clamp_low pwm h]
    · intro h
      rw [e, scaled_clamp_high pwm h]

theorem pwm_set_value_bidirectional_witness :
    ((pwm_set_value ⟨true, false, 0, 1⟩ ⟨0, 0, 5000⟩ (F32.ofBits false 0x3F091111)
        initial_globals : Nat) : Int) =
      88 + spec_round_floor
        (960 * F32.toRat (pwm_clamp (F32.ofBits false 0x3F091111))) ∧
    pwm_set_value ⟨true, false, 0, 1⟩ ⟨0, 0, 5000⟩ (F32.ofBits false 0x3F091111)
        initial_globals = 602 :=
  ⟨((pwm_set_value_bidirectional ⟨true, false, 0, 1⟩ ⟨0, 0, 5000⟩ (F32.ofBits false 0x3F091111)
      initial_globals rfl (by decide) rfl rfl).2.2.2.2.2.2.1 rfl).1 (by decide), by decide⟩

/-- Claim C9: For each fixed direction, with on-ground and failsafe both false, the throttle
mapping of `pwm_set` is monotonic: for throttle inputs `p1 <= p2` the value encoded for
`p1` is at most the value encoded for `p2`. -/
theorem pwm_set_value_monotone (cfg : Config) (env : Env) (p1 p2 : F32) (g : Globals)
    (hb : cfg.BIDIRECTIONAL = true) (hg : env.onground = 0) (hf : env.failsafe = 0)
    (hle : F32.le p1 p2 = true) :
    pwm_set_value cfg env p1 g ≤ pwm_set_value cfg env p2 g := by
  have hm := scaled_clamp_mono p1 p2 hle
  rw [pwm_set_value_normal cfg env p1 g hg hf, pwm_set_value_normal cfg env p2 g hg hf]
  by_cases hd : g.pwmdir = cfg.FORWARD
  · rw [pwm_map_forward cfg _ p1 hb hd, pwm_map_forward cfg _ p2 hb hd]
    omega
  · by_cases hr : g.pwmdir = cfg.REVERSE
    · rw [pwm_map_reverse cfg _ p1 hb hd hr, pwm_map_reverse cfg _ p2 hb hd hr]
      omega
    · unfold pwm_map
      rw [if_pos hb, if_neg hd, if_neg hr, if_pos hb, if_neg hd, if_neg hr]

theorem pwm_set_value_monotone_witness :
    F32.le (F32.ofBits false 0x3E800000) (F32.ofBits false 0x3F000000) = true ∧
    pwm_set_value ⟨true, false, 0, 1⟩ ⟨0, 0, 5000⟩ (F32.ofBits false 0x3E800000)
        initial_globals ≤
      pwm_set_value ⟨true, false, 0, 1⟩ ⟨0, 0, 5000⟩ (F32.ofBits false 0x3F000000)
        initial_globals :=
  ⟨by decide, pwm_set_value_monotone ⟨true, false, 0, 1⟩ ⟨0, 0, 5000⟩
    (F32.ofBits false 0x3E800000) (F32.ofBits false 0x3F000000) initial_globals rfl rfl rfl
    (by decide)⟩

/-- Claim C10: Whenever the on-ground flag is true, `pwm_set` encodes value 0, i.e. frame
`0x0000` with telemetry 0, for every channel, throttle input, direction, failsafe state and
failsafe-latch value. -/
theorem pwm_set_onground (cfg : Config) (env : Env) (number : Nat) (pwm : F32) (g : Globals)
    (h : env.onground ≠ 0) :
    pwm_set_value cfg env pwm g = 0 ∧
    make_packet_frame (pwm_set_value cfg env pwm g) false = 0x0000 ∧
    (number ≠ 3 →
      (pwm_set cfg env number pwm g).1.motor_data = make_packet number 0 false g.motor_data) ∧
    (number = 3 →
      (pwm_set cfg env number pwm g).2 =
        (bitbang_data cfg (make_packet 3 0 false g.motor_data)).2) := by
  have hv : pwm_set_value cfg env pwm g = 0 := by
    unfold pwm_set_value
    simp only [if_pos h]
    split
    · split
      · rfl
      · split <;> rfl
    · rfl
  refine ⟨hv, by rw [hv]; decide, ?_, ?_⟩
  · intro hn
    rw [pwm_set_of_ne_three cfg env number pwm g hn, hv]
  · intro hn
    subst hn
    rw [pwm_set_three, hv]

theorem pwm_set_onground_witness :
    (1 : Int) ≠ 0 ∧
    pwm_set_value ⟨true, false, 0, 1⟩ ⟨0, 1, 5000⟩ (F32.ofBits false 0x3F000000)
      initial_globals = 0 :=
  ⟨by decide, (pwm_set_onground ⟨true, false, 0, 1⟩ ⟨0, 1, 5000⟩ 2 (F32.ofBits false 0x3F000000)
    initial_globals (by decide)).1⟩

/-- The binary32 product is rounded before it is truncated: for the throttle with bit
pattern `0x3F091111`, i.e. `8982801 / 2 ^ 24`, the exact product with 960 is just below
514 and has integer part 513, while the `float` product is 514. -/
theorem mul960_rounds_up :
    (F32.ofBits false 0x3F091111).significand = 8982801 ∧
    (F32.ofBits false 0x3F091111).scale = 126 ∧
    960 * 8982801 / 2 ^ 24 = 513 ∧
    F32.toUInt16 (F32.mul (F32.ofBits false 0x3F091111) (F32.ofNat 960)) = 514 := by
  decide

theorem elapsed_eq_sub (t t0 : Nat) (h0 : t0 ≤ t) (ht : t < 4294967296) :
    elapsed t t0 = t - t0 := by
  unfold elapsed
  omega

theorem elapsed_mod (t t0 : Nat) : elapsed t (t0 % 4294967296) = elapsed t t0 := by
  unfold elapsed
  rw [Nat.mod_mod]

theorem pwm_set_value_failsafe (cfg : Config) (env : Env) (pwm : F32) (g : Globals)
    (hf : env.failsafe ≠ 0) (hg : env.onground = 0) :
    pwm_set_value cfg env pwm g =
      if g.pwm_failsafe_time = 0 then pwm_map cfg g.pwmdir (pwm_clamp pwm)
      else if elapsed env.gettime g.pwm_failsafe_time > 100000 then 0
      else pwm_map cfg g.pwmdir (pwm_clamp pwm) := by
  unfold pwm_set_value
  simp [hf, hg]

theorem pwm_set_latch (cfg : Config) (env : Env) (number : Nat) (pwm : F32) (g : Globals) :
    (pwm_set cfg env number pwm g).1.pwm_failsafe_time = pwm_set_failsafe_time env g := by
  unfold pwm_set
  simp only
  split <;> rfl

theorem pwm_set_encodes (cfg : Config) (env : Env) (number : Nat) (pwm : F32) (g : Globals) :
    (number ≠ 3 → (pwm_set cfg env number pwm g).1.motor_data =
      make_packet number (pwm_set_value cfg env pwm g) false g.motor_data) ∧
    (number = 3 → (pwm_set cfg env number pwm g).2 =
      (bitbang_data cfg (make_packet 3 (pwm_set_value cfg env pwm g) false g.motor_data)).2) := by
  constructor
  · intro hn
    rw [pwm_set_of_ne_three cfg env number pwm g hn]
  · intro hn
    subst hn
    rw [pwm_set_three]

/-- Claim C11: while failsafe is active and the craft is not on ground, with the failsafe
latch holding the onset time `t0`, non-zero, a `pwm_set` call at clock time `t` encodes the
normal throttle mapping when the elapsed time `t - t0` (32-bit unsigned) is at most 100000
and value 0 when it is greater; the call that first detects failsafe (latch 0) latches the
current time and still encodes the normal mapping. -/
theorem pwm_set_failsafe_cutoff (cfg : Config) (env : Env) (number : Nat) (pwm : F32)
    (g : Globals) (hf : env.failsafe ≠ 0) (hg : env.onground = 0) :
    (g.pwm_failsafe_time ≠ 0 →
      (elapsed env.gettime g.pwm_failsafe_time ≤ 100000 →
        pwm_set_value cfg env pwm g = pwm_map cfg g.pwmdir (pwm_clamp pwm)) ∧
      (elapsed env.gettime g.pwm_failsafe_time > 100000 → pwm_set_value cfg env pwm g = 0) ∧
      (pwm_set cfg env number pwm g).1.pwm_failsafe_time = g.pwm_failsafe_time) ∧
    (g.pwm_failsafe_time = 0 →
      pwm_set_value cfg env pwm g = pwm_map cfg g.pwmdir (pwm_clamp pwm) ∧
      (pwm_set cfg env number pwm g).1.pwm_failsafe_time = env.gettime % 4294967296) ∧
    (g.pwm_failsafe_time ≤ env.gettime → env.gettime < 4294967296 →
      elapsed env.gettime g.pwm_failsafe_time = env.gettime - g.pwm_failsafe_time) ∧
    (number ≠ 3 → (pwm_set cfg env number pwm g).1.motor_data =
      make_packet number (pwm_set_value cfg env pwm g) false g.motor_data) ∧
    (number = 3 → (pwm_set cfg env number pwm g).2 =
      (bitbang_data cfg (make_packet 3 (pwm_set_value cfg env pwm g) false g.motor_data)).2) := by
  have hv := pwm_set_value_failsafe cfg env pwm g hf hg
  have hl := pwm_set_latch cfg env number pwm g
  unfold pwm_set_failsafe_time at hl
  rw [if_pos hf] at hl
  refine ⟨?_, ?_, elapsed_eq_sub _ _, (pwm_set_encodes cfg env number pwm g).1,
    (pwm_set_encodes cfg env number pwm g).2⟩
  · intro h0
    rw [if_neg h0] at hv hl
    refine ⟨?_, ?_, hl⟩
    · intro hle
      rw [hv, if_neg (by omega)]
    · intro hgt
      rw [hv, if_pos hgt]
  · intro h0
    rw [if_pos h0] at hv hl
    exact ⟨hv, hl⟩

theorem pwm_set_failsafe_cutoff_witness :
    pwm_set_value ⟨true, false, 0, 1⟩ ⟨1, 0, 150000⟩ (F32.ofBits false 0x3F000000)
        { initial_globals with pwm_failsafe_time := 50000 } =
      pwm_map ⟨true, false, 0, 1⟩ 0 (pwm_clamp (F32.ofBits false 0x3F000000)) ∧
    pwm_set_value ⟨true, false, 0, 1⟩ ⟨1, 0, 150001⟩ (F32.ofBits false 0x3F000000)
        { initial_globals with pwm_failsafe_time := 50000 } = 0 :=
  ⟨((pwm_set_failsafe_cutoff ⟨true, false, 0, 1⟩ ⟨1, 0, 150000⟩ 0 (F32.ofBits false 0x3F000000)
      { initial_globals with pwm_failsafe_time := 50000 } (by decide) rfl).1 (by decide)).1
      (by decide),
   ((pwm_set_failsafe_cutoff ⟨true, false, 0, 1⟩ ⟨1, 0, 150001⟩ 0 (F32.ofBits false 0x3F000000)
      { initial_globals with pwm_failsafe_time := 50000 } (by decide) rfl).1 (by decide)).2.1
      (by decide)⟩

/-- During a failsafe episode whose calls are all made at clock times between `t1` and `t`,
the latch stays 0 or holds a time between `t1` and `t`. -/
theorem pwm_set_calls_latch (cfg : Config) (t1 t : Nat) :
    ∀ (cs : List (Env × Nat × F32)) (g : Globals),
      (g.pwm_failsafe_time = 0 ∨ (t1 ≤ g.pwm_failsafe_time ∧ g.pwm_failsafe_time ≤ t)) →
      t < 4294967296 →
      (∀ c ∈ cs, c.1.failsafe ≠ 0 ∧ t1 ≤ c.1.gettime ∧ c.1.gettime ≤ t) →
      ((pwm_set_calls cfg cs g).pwm_failsafe_time = 0 ∨
        (t1 ≤ (pwm_set_calls cfg cs g).pwm_failsafe_time ∧
          (pwm_set_calls cfg cs g).pwm_failsafe_time ≤ t)) := by
  intro cs
  induction cs with
  | nil => intro g hg _ _; exact hg
  | cons c cs ih =>
    intro g hg ht hc
    have h1 := hc c (List.mem_cons_self _ _)
    apply ih _ _ ht (fun d hd => hc d (List.mem_cons_of_mem _ hd))
    rw [pwm_set_latch]
    unfold pwm_set_failsafe_time
    rw [if_pos h1.1]
    split
    · have : c.1.gettime % 4294967296 = c.1.gettime := Nat.mod_eq_of_lt (by omega)
      rw [this]
      exact Or.inr ⟨h1.2.1, h1.2.2⟩
    · exact hg

/-- Claim C12: for every prior value of the failsafe latch, a `pwm_set` call with failsafe
false and on-ground false encodes the normal throttle mapping and resets the latch to 0;
the first call of a later failsafe episode, at clock time `t1`, then latches `t1` and
encodes the normal mapping, and a later call of the episode at clock time `t`, whatever
calls the episode made in between, is not cut off while the elapsed time `t - t1` is at
most 100000. -/
theorem pwm_set_failsafe_clear (cfg : Config) (env env1 env2 : Env) (n n1 : Nat)
    (pwm pwm1 pwm2 : F32) (g : Globals)
    (hf : env.failsafe = 0) (hg : env.onground = 0)
    (hf1 : env1.failsafe ≠ 0) (hg1 : env1.onground = 0)
    (hf2 : env2.failsafe ≠ 0) (hg2 : env2.onground = 0) :
    pwm_set_value cfg env pwm g = pwm_map cfg g.pwmdir (pwm_clamp pwm) ∧
    (pwm_set cfg env n pwm g).1.pwm_failsafe_time = 0 ∧
    pwm_set_value cfg env1 pwm1 (pwm_set cfg env n pwm g).1 =
      pwm_map cfg (pwm_set cfg env n pwm g).1.pwmdir (pwm_clamp pwm1) ∧
    (pwm_set cfg env1 n1 pwm1 (pwm_set cfg env n pwm g).1).1.pwm_failsafe_time =
      env1.gettime % 4294967296 ∧
    (elapsed env2.gettime env1.gettime ≤ 100000 →
      pwm_set_value cfg env2 pwm2 (pwm_set cfg env1 n1 pwm1 (pwm_set cfg env n pwm g).1).1 =
        pwm_map cfg (pwm_set cfg env1 n1 pwm1 (pwm_set cfg env n pwm g).1).1.pwmdir
          (pwm_clamp pwm2)) ∧
    (∀ (cs : List (Env × Nat × F32)) (t1 : Nat),
      (∀ c ∈ cs, c.1.failsafe ≠ 0 ∧ t1 ≤ c.1.gettime ∧ c.1.gettime ≤ env2.gettime) →
      env2.gettime < 4294967296 → env2.gettime - t1 ≤ 100000 →
      pwm_set_value cfg env2 pwm2 (pwm_set_calls cfg cs (pwm_set cfg env n pwm g).1) =
        pwm_map cfg (pwm_set_calls cfg cs (pwm_set cfg env n pwm g).1).pwmdir
          (pwm_clamp pwm2)) := by
  have l0 : (pwm_set cfg env n pwm g).1.pwm_failsafe_time = 0 := by
    rw [pwm_set_latch]
    unfold pwm_set_failsafe_time
    rw [if_neg (by simpa using hf)]
  have l1 : (pwm_set cfg env1 n1 pwm1 (pwm_set cfg env n pwm g).1).1.pwm_failsafe_time =
      env1.gettime % 4294967296 := by
    rw [pwm_set_latch]
    unfold pwm_set_failsafe_time
    rw [if_pos hf1, if_pos l0]
  refine ⟨pwm_set_value_normal cfg env pwm g hg hf, l0, ?_, l1, ?_, ?_⟩
  · rw [pwm_set_value_failsafe cfg env1 pwm1 _ hf1 hg1, if_pos l0]
  · intro hle
    rw [pwm_set_value_failsafe cfg env2 pwm2 _ hf2 hg2, l1]
    split
    · rfl
    · rw [elapsed_mod, if_neg (by omega)]
  · intro cs t1 hcs ht hle
    have hinv := pwm_set_calls_latch cfg t1 env2.gettime cs _ (Or.inl l0) ht hcs
    rw [pwm_set_value_failsafe cfg env2 pwm2 _ hf2 hg2]
    split
    · rfl
    · rename_i hne
      rcases hinv with h0 | ⟨ha, hb⟩
      · exact absurd h0 hne
      · rw [elapsed_eq_sub _ _ hb ht, if_neg (by omega)]

theorem pwm_set_failsafe_clear_witness :
    pwm_set_value ⟨true, false, 0, 1⟩ ⟨0, 0, 900000⟩ (F32.ofBits false 0x3F000000)
        { initial_globals with pwm_failsafe_time := 50000 } =
      pwm_map ⟨true, false, 0, 1⟩ 0 (pwm_clamp (F32.ofBits false 0x3F000000)) ∧
    (pwm_set ⟨true, false, 0, 1⟩ ⟨0, 0, 900000⟩ 0 (F32.ofBits false 0x3F000000)
        { initial_globals with pwm_failsafe_time := 50000 }).1.pwm_failsafe_time = 0 :=
  ⟨(pwm_set_failsafe_clear ⟨true, false, 0, 1⟩ ⟨0, 0, 900000⟩ ⟨1, 0, 950000⟩ ⟨1, 0, 960000⟩ 0 1
      (F32.ofBits false 0x3F000000) (F32.ofBits false 0x3F000000) (F32.ofBits false 0x3F000000)
      { initial_globals with pwm_failsafe_time := 50000 } rfl rfl (by decide) rfl (by decide)
      rfl).1,
   (pwm_set_failsafe_clear ⟨true, false, 0, 1⟩ ⟨0, 0, 900000⟩ ⟨1, 0, 950000⟩ ⟨1, 0, 960000⟩ 0 1
      (F32.ofBits false 0x3F000000) (F32.ofBits false 0x3F000000) (F32.ofBits false 0x3F000000)
      { initial_globals with pwm_failsafe_time := 50000 } rfl rfl (by decide) rfl (by decide)
      rfl).2.1⟩

theorem motorbeep_off (cfg : Config) (env : Env) (g : Globals) (hf : env.failsafe = 0) :
    motorbeep cfg env g = ({ g with motor_beep_time := 0 }, []) := by
  unfold motorbeep
  rw [if_neg (by simpa using hf)]

theorem motorbeep_quiet (cfg : Config) (env : Env) (g : Globals) (hf : env.failsafe ≠ 0)
    (hq : beep_delta env g ≤ MOTOR_BEEPS_TIMEOUT ∨ beep_command (beep_delta env g) = 0) :
    motorbeep cfg env g = ({ g with motor_beep_time := beep_latch env g }, []) := by
  unfold motorbeep
  rw [if_pos hf]
  simp only
  change (if beep_delta env g > MOTOR_BEEPS_TIMEOUT then
      (if beep_command (beep_delta env g) ≠ 0 then _ else _) else _) = _
  by_cases hd : beep_delta env g > MOTOR_BEEPS_TIMEOUT
  · rw [if_pos hd]
    have hc : beep_command (beep_delta env g) = 0 := by
      rcases hq with h | h
      · omega
      · exact h
    rw [if_neg (by simpa using hc)]
    rfl
  · rw [if_neg hd]
    rfl

theorem motorbeep_beep (cfg : Config) (env : Env) (g : Globals) (hf : env.failsafe ≠ 0)
    (hd : beep_delta env g > MOTOR_BEEPS_TIMEOUT) (hc : beep_command (beep_delta env g) ≠ 0) :
    motorbeep cfg env g =
      ({ g with motor_beep_time := beep_latch env g,
                motor_data := (bitbang_data cfg
                  (beep_timeline (beep_command (beep_delta env g)) g.motor_data)).1 },
        (bitbang_data cfg (beep_timeline (beep_command (beep_delta env g)) g.motor_data)).2) := by
  unfold motorbeep
  rw [if_pos hf]
  simp only
  change (if beep_delta env g > MOTOR_BEEPS_TIMEOUT then
      (if beep_command (beep_delta env g) ≠ 0 then _ else _) else _) = _
  rw [if_pos hd, if_pos hc]
  rfl

/-- Claim C13: `motorbeep` sends no beep unless failsafe has been active for more than the
timeout (5,000,000 microseconds) since the beep timer was latched: on a call with failsafe
false, and on a call with failsafe true whose elapsed time since the latch is at most
5,000,000, the timeline is unchanged and no pin write occurs; a call with failsafe false
resets the beep timer to 0. -/
theorem motorbeep_waits (cfg : Config) (env : Env) (g : Globals) :
    MOTOR_BEEPS_TIMEOUT = 5000000 ∧
    (env.failsafe = 0 →
      (motorbeep cfg env g).1.motor_data = g.motor_data ∧ (motorbeep cfg env g).2 = [] ∧
      (motorbeep cfg env g).1.motor_beep_time = 0) ∧
    (env.failsafe ≠ 0 → beep_delta env g ≤ 5000000 →
      (motorbeep cfg env g).1.motor_data = g.motor_data ∧ (motorbeep cfg env g).2 = [] ∧
      (motorbeep cfg env g).1.motor_beep_time = beep_latch env g) ∧
    (env.failsafe ≠ 0 → g.motor_beep_time = 0 →
      beep_latch env g = env.gettime % 4294967296 ∧ beep_delta env g = 0) ∧
    (env.failsafe ≠ 0 → g.motor_beep_time ≠ 0 → g.motor_beep_time ≤ env.gettime →
      env.gettime < 4294967296 →
      beep_latch env g = g.motor_beep_time ∧
      beep_delta env g = env.gettime - g.motor_beep_time) := by
  refine ⟨rfl, ?_, ?_, ?_, ?_⟩
  · intro hf
    rw [motorbeep_off cfg env g hf]
    exact ⟨rfl, rfl, rfl⟩
  · intro hf hd
    rw [motorbeep_quiet cfg env g hf (Or.inl hd)]
    exact ⟨rfl, rfl, rfl⟩
  · intro _ h0
    unfold beep_delta beep_latch elapsed
    rw [if_pos h0]
    constructor
    · rfl
    · omega
  · intro _ h0 hle ht
    unfold beep_delta beep_latch elapsed
    rw [if_neg h0]
    constructor
    · rfl
    · omega

theorem motorbeep_waits_witness :
    (motorbeep ⟨true, false, 0, 1⟩ ⟨1, 0, 5001000⟩
      { initial_globals with motor_beep_time := 1000 }).2 = [] ∧
    (motorbeep ⟨true, false, 0, 1⟩ ⟨0, 0, 9001000⟩
      { initial_globals with motor_beep_time := 1000 }).1.motor_beep_time = 0 :=
  ⟨((motorbeep_waits ⟨true, false, 0, 1⟩ ⟨1, 0, 5001000⟩
      { initial_globals with motor_beep_time := 1000 }).2.2.1 (by decide) (by decide)).2.1,
   ((motorbeep_waits ⟨true, false, 0, 1⟩ ⟨0, 0, 9001000⟩
      { initial_globals with motor_beep_time := 1000 }).2.1 rfl).2.2⟩

theorem beep_command_windows (d : Nat) :
    (d % 2000000 < 250000 → beep_command d = 1) ∧
    (250000 ≤ d % 2000000 → d % 2000000 < 500000 → beep_command d = 3) ∧
    (500000 ≤ d % 2000000 → d % 2000000 < 750000 → beep_command d = 2) ∧
    (750000 ≤ d % 2000000 → d % 2000000 < 1000000 → beep_command d = 4) ∧
    (1000000 ≤ d % 2000000 → beep_command d = 0) ∧
    (d % 2000000 < 1000000 → beep_command d ≠ 0) := by
  unfold beep_command DSHOT_CMD_BEEP1 DSHOT_CMD_BEEP2 DSHOT_CMD_BEEP3 DSHOT_CMD_BEEP4
  generalize hr : d % 2000000 = r
  refine ⟨?_, ?_, ?_, ?_, ?_, ?_⟩ <;> intros <;> split_ifs <;> omega

theorem beep_command_mod (d d2 : Nat) (h : d2 % 2000000 = d % 2000000) :
    beep_command d2 = beep_command d := by
  unfold beep_command
  rw [h]

theorem motorbeep_beep_events (cfg : Config) (env : Env) (g : Globals) (hf : env.failsafe ≠ 0)
    (hd : beep_delta env g > MOTOR_BEEPS_TIMEOUT) (hc : beep_command (beep_delta env g) ≠ 0) :
    (motorbeep cfg env g).2 =
      (bitbang_data cfg (beep_timeline (beep_command (beep_delta env g)) g.motor_data)).2 ∧
    (motorbeep cfg env g).1.motor_data =
      (bitbang_data cfg (beep_timeline (beep_command (beep_delta env g)) g.motor_data)).1 := by
  constructor <;> rw [motorbeep_beep cfg env g hf hd hc]

theorem motorbeep_quiet_events (cfg : Config) (env : Env) (g : Globals) (hf : env.failsafe ≠ 0)
    (hq : beep_delta env g ≤ MOTOR_BEEPS_TIMEOUT ∨ beep_command (beep_delta env g) = 0) :
    (motorbeep cfg env g).2 = [] ∧ (motorbeep cfg env g).1.motor_data = g.motor_data := by
  constructor <;> rw [motorbeep_quiet cfg env g hf hq]

/-- Claim C14: on a `motorbeep` call with failsafe active and elapsed time `d` greater than
the timeout, the beep command depends only on `r = d mod 2000000`: BEEP1 for `r < 250000`,
BEEP3 for `250000 <= r < 500000`, BEEP2 for `500000 <= r < 750000`, BEEP4 for
`750000 <= r < 1000000`, these being encoded on the four channels and transmitted, and no
beep is sent for `r >= 1000000`. -/
theorem motorbeep_command (cfg : Config) (env : Env) (g : Globals)
    (hf : env.failsafe ≠ 0) (hd : beep_delta env g > MOTOR_BEEPS_TIMEOUT) :
    (beep_delta env g % 2000000 < 250000 → beep_command (beep_delta env g) = 1) ∧
    (250000 ≤ beep_delta env g % 2000000 → beep_delta env g % 2000000 < 500000 →
      beep_command (beep_delta env g) = 3) ∧
    (500000 ≤ beep_delta env g % 2000000 → beep_delta env g % 2000000 < 750000 →
      beep_command (beep_delta env g) = 2) ∧
    (750000 ≤ beep_delta env g % 2000000 → beep_delta env g % 2000000 < 1000000 →
      beep_command (beep_delta env g) = 4) ∧
    (beep_delta env g % 2000000 < 1000000 →
      (motorbeep cfg env g).2 =
        (bitbang_data cfg (beep_timeline (beep_command (beep_delta env g)) g.motor_data)).2 ∧
      (motorbeep cfg env g).1.motor_data =
        (bitbang_data cfg (beep_timeline (beep_command (beep_delta env g)) g.motor_data)).1) ∧
    (1000000 ≤ beep_delta env g % 2000000 →
      beep_command (beep_delta env g) = 0 ∧
      (motorbeep cfg env g).2 = [] ∧ (motorbeep cfg env g).1.motor_data = g.motor_data) ∧
    (∀ d2 : Nat, d2 % 2000000 = beep_delta env g % 2000000 →
      beep_command d2 = beep_command (beep_delta env g)) := by
  obtain ⟨w1, w3, w2, w4, w0, wn⟩ := beep_command_windows (beep_delta env g)
  refine ⟨w1, w3, w2, w4, ?_, ?_, fun d2 h => beep_command_mod _ d2 h⟩
  · intro h
    exact motorbeep_beep_events cfg env g hf hd (wn h)
  · intro h
    exact ⟨w0 h, motorbeep_quiet_events cfg env g hf (Or.inr (w0 h))⟩

theorem motorbeep_command_witness :
    beep_command (beep_delta ⟨1, 0, 6301000⟩
      { initial_globals with motor_beep_time := 1000 }) = 3 :=
  (motorbeep_command ⟨true, false, 0, 1⟩ ⟨1, 0, 6301000⟩
    { initial_globals with motor_beep_time := 1000 } (by decide) (by decide)).2.1
    (by decide) (by decide)

theorem beep_timeline_length (c : Nat) :
    (beep_timeline c (List.replicate 64 0)).length = 64 := by
  unfold beep_timeline
  exact four_channels_length c c c c true true true true

theorem bitbang_events_ne_nil (cfg : Config) (md : List Nat) : (bitbang_data cfg md).2 ≠ [] := by
  intro h
  have h1 := bitbang_data_writes cfg md
  rw [h] at h1
  have h2 := congrArg List.length h1
  rw [flatMap_slot_writes_length, List.length_range] at h2
  simp [pin_writes] at h2

/-- Counterexample to claim C15 as stated: with the beep timer latched at clock 1000 and
failsafe active, the call at clock 5101000, i.e. 5.1 s after the latch, falls at 1100000
in the 2-second cycle; no command is selected and nothing is sent, where the claim has the
BEEP1 code sent on all four channels. -/
theorem motorbeep_silent_at_5100000 :
    beep_delta ⟨1, 0, 5101000⟩ { initial_globals with motor_beep_time := 1000 } = 5100000 ∧
    5100000 % 2000000 = 1100000 ∧
    beep_command 5100000 = 0 ∧
    (motorbeep ⟨true, false, 0, 1⟩ ⟨1, 0, 5101000⟩
      { initial_globals with motor_beep_time := 1000 }).2 = [] ∧
    (motorbeep ⟨true, false, 0, 1⟩ ⟨1, 0, 5101000⟩
      { initial_globals with motor_beep_time := 1000 }).2 ≠
      (bitbang_data ⟨true, false, 0, 1⟩ (beep_timeline DSHOT_CMD_BEEP1
        ({ initial_globals with motor_beep_time := 1000 } : Globals).motor_data)).2 := by
  have hq := (motorbeep_quiet_events ⟨true, false, 0, 1⟩ ⟨1, 0, 5101000⟩
    { initial_globals with motor_beep_time := 1000 } (by decide) (Or.inr (by decide))).1
  refine ⟨by decide, by decide, by decide, hq, ?_⟩
  rw [hq]
  exact fun h => bitbang_events_ne_nil _ _ h.symm

/-- Claim C15, amended: with failsafe active and the default 5 second timeout, `motorbeep`
sends no beep at any elapsed time up to 5 s, nor at elapsed 5.1 s, 5.3 s, 5.6 s, 5.9 s and
5.95 s, which fall in the silent second half of the 2-second cycle counted from the latch;
it sends the BEEP1 code on all 4 channels at elapsed 6.1 s, BEEP3 at 6.3 s, BEEP2 at 6.6 s
and BEEP4 at 6.9 s. -/
theorem motorbeep_sequence (cfg : Config) (env : Env) (g : Globals) (hf : env.failsafe ≠ 0) :
    (beep_delta env g ≤ 5000000 →
      (motorbeep cfg env g).2 = [] ∧ (motorbeep cfg env g).1.motor_data = g.motor_data) ∧
    (beep_delta env g = 5100000 ∨ beep_delta env g = 5300000 ∨ beep_delta env g = 5600000 ∨
        beep_delta env g = 5900000 ∨ beep_delta env g = 5950000 →
      (motorbeep cfg env g).2 = [] ∧ (motorbeep cfg env g).1.motor_data = g.motor_data) ∧
    (beep_delta env g = 6100000 →
      (motorbeep cfg env g).2 =
        (bitbang_data cfg (beep_timeline DSHOT_CMD_BEEP1 g.motor_data)).2) ∧
    (beep_delta env g = 6300000 →
      (motorbeep cfg env g).2 =
        (bitbang_data cfg (beep_timeline DSHOT_CMD_BEEP3 g.motor_data)).2) ∧
    (beep_delta env g = 6600000 →
      (motorbeep cfg env g).2 =
        (bitbang_data cfg (beep_timeline DSHOT_CMD_BEEP2 g.motor_data)).2) ∧
    (beep_delta env g = 6900000 →
      (motorbeep cfg env g).2 =
        (bitbang_data cfg (beep_timeline DSHOT_CMD_BEEP4 g.motor_data)).2) := by
  refine ⟨?_, ?_, ?_, ?_, ?_, ?_⟩
  · intro h
    exact motorbeep_quiet_events cfg env g hf (Or.inl h)
  · intro h
    apply motorbeep_quiet_events cfg env g hf
    right
    rcases h with h | h | h | h | h <;> rw [h] <;> decide
  · intro h
    have hc : beep_command (beep_delta env g) = DSHOT_CMD_BEEP1 := by rw [h]; decide
    have := (motorbeep_beep_events cfg env g hf (by rw [h]; decide) (by rw [hc]; decide)).1
    rw [hc] at this
    exact this
  · intro h
    have hc : beep_command (beep_delta env g) = DSHOT_CMD_BEEP3 := by rw [h]; decide
    have := (motorbeep_beep_events cfg env g hf (by rw [h]; decide) (by rw [hc]; decide)).1
    rw [hc] at this
    exact this
  · intro h
    have hc : beep_command (beep_delta env g) = DSHOT_CMD_BEEP2 := by rw [h]; decide
    have := (motorbeep_beep_events cfg env g hf (by rw [h]; decide) (by rw [hc]; decide)).1
    rw [hc] at this
    exact this
  · intro h
    have hc : beep_command (beep_delta env g) = DSHOT_CMD_BEEP4 := by rw [h]; decide
    have := (motorbeep_beep_events cfg env g hf (by rw [h]; decide) (by rw [hc]; decide)).1
    rw [hc] at this
    exact this

theorem motorbeep_sequence_witness :
    (motorbeep ⟨true, false, 0, 1⟩ ⟨1, 0, 6101000⟩
      { initial_globals with motor_beep_time := 1000 }).2 =
      (bitbang_data ⟨true, false, 0, 1⟩ (beep_timeline DSHOT_CMD_BEEP1
        ({ initial_globals with motor_beep_time := 1000 } : Globals).motor_data)).2 :=
  (motorbeep_sequence ⟨true, false, 0, 1⟩ ⟨1, 0, 6101000⟩
    { initial_globals with motor_beep_time := 1000 } (by decide)).2.2.1 (by decide)

/-- Claim C16: whenever `motorbeep` selects a beep command `c` and the timeline is all-zero
on entry, it encodes the frame of value `c` with the telemetry bit set on each of the
channels 0, 1, 2, 3 and transmits at once: the 64 levels written to each of the four pins
are the MSB-first pulse rendering of that frame (`0x0033` for BEEP1), and the timeline is
all-zero on return. -/
theorem motorbeep_transmits (cfg : Config) (env : Env) (g : Globals) (hf : env.failsafe ≠ 0)
    (hd : beep_delta env g > MOTOR_BEEPS_TIMEOUT) (hc : beep_command (beep_delta env g) ≠ 0)
    (hz : g.motor_data = List.replicate 64 0) :
    (beep_command (beep_delta env g) = 1 ∨ beep_command (beep_delta env g) = 2 ∨
      beep_command (beep_delta env g) = 3 ∨ beep_command (beep_delta env g) = 4) ∧
    (motorbeep cfg env g).2 =
      (bitbang_data cfg (make_packet 3 (beep_command (beep_delta env g)) true
        (make_packet 2 (beep_command (beep_delta env g)) true
          (make_packet 1 (beep_command (beep_delta env g)) true
            (make_packet 0 (beep_command (beep_delta env g)) true
              (List.replicate 64 0)))))).2 ∧
    pin_levels Port.GPIOA 1 (motorbeep cfg env g).2 =
      render (make_packet_frame (beep_command (beep_delta env g)) true) ∧
    pin_levels Port.GPIOA 3 (motorbeep cfg env g).2 =
      render (make_packet_frame (beep_command (beep_delta env g)) true) ∧
    pin_levels Port.GPIOA 10 (motorbeep cfg env g).2 =
      render (make_packet_frame (beep_command (beep_delta env g)) true) ∧
    pin_levels Port.GPIOA 8 (motorbeep cfg env g).2 =
      render (make_packet_frame (beep_command (beep_delta env g)) true) ∧
    (motorbeep cfg env g).1.motor_data = List.replicate 64 0 ∧
    make_packet_frame DSHOT_CMD_BEEP1 true = 0x0033 := by
  obtain ⟨e1, e2⟩ := motorbeep_beep_events cfg env g hf hd hc
  rw [hz] at e1 e2
  obtain ⟨l0, l1, l2, l3⟩ := four_channels_levels cfg (beep_command (beep_delta env g))
    (beep_command (beep_delta env g)) (beep_command (beep_delta env g))
    (beep_command (beep_delta env g)) true true true true
  have hcases : beep_command (beep_delta env g) = 1 ∨ beep_command (beep_delta env g) = 2 ∨
      beep_command (beep_delta env g) = 3 ∨ beep_command (beep_delta env g) = 4 := by
    revert hc
    unfold beep_command DSHOT_CMD_BEEP1 DSHOT_CMD_BEEP2 DSHOT_CMD_BEEP3 DSHOT_CMD_BEEP4
    split_ifs <;> simp
  refine ⟨hcases, e1, ?_, ?_, ?_, ?_, ?_, by decide⟩
  · rw [e1]; exact l0
  · rw [e1]; exact l1
  · rw [e1]; exact l2
  · rw [e1]; exact l3
  · rw [e2]
    exact bitbang_data_motor_data cfg _ (beep_timeline_length _)

theorem motorbeep_transmits_witness :
    pin_levels Port.GPIOA 1 (motorbeep ⟨true, false, 0, 1⟩ ⟨1, 0, 6101000⟩
      { initial_globals with motor_beep_time := 1000 }).2 =
      render (make_packet_frame (beep_command (beep_delta ⟨1, 0, 6101000⟩
        { initial_globals with motor_beep_time := 1000 })) true) :=
  (motorbeep_transmits ⟨true, false, 0, 1⟩ ⟨1, 0, 6101000⟩
    { initial_globals with motor_beep_time := 1000 } (by decide) (by decide) (by decide)
    rfl).2.2.1

/-- Claim C18, as the code behaves: when `pwm_init` runs at clock 100000 the latch it
computes is 0, the value that means no failsafe is being timed, so the first `pwm_set`
call under failsafe, here at clock 150000 with throttle 0.5 in direction FORWARD, latches
afresh and encodes 568 instead of 0; and when `pwm_init` runs at clock 200000, a `pwm_set`
call at that same clock reading finds an elapsed time of exactly 100000, which is not
greater than 100000, and encodes 568 as well. -/
theorem pwm_init_not_off :
    (pwm_init ⟨1, 0, 100000⟩ initial_globals).pwm_failsafe_time = 0 ∧
    pwm_set_value ⟨true, false, 0, 1⟩ ⟨1, 0, 150000⟩ (F32.ofBits false 0x3F000000)
      (pwm_init ⟨1, 0, 100000⟩ initial_globals) = 568 ∧
    (pwm_init ⟨1, 0, 200000⟩ initial_globals).pwm_failsafe_time = 100000 ∧
    elapsed 200000 (pwm_init ⟨1, 0, 200000⟩ initial_globals).pwm_failsafe_time = 100000 ∧
    pwm_set_value ⟨true, false, 0, 1⟩ ⟨1, 0, 200000⟩ (F32.ofBits false 0x3F000000)
      (pwm_init ⟨1, 0, 200000⟩ initial_globals) = 568 := by
  decide

/-- Where the code does turn the signal off after `pwm_init`: when `pwm_init` ran at a
clock `T` other than 100000, a `pwm_set` call under failsafe at a later 32-bit clock `t`,
with `t - T + 100000` below `2 ^ 32` and the latch still the one `pwm_init` set, encodes 0. -/
theorem pwm_init_off (cfg : Config) (env0 env : Env) (pwm : F32) (g0 g : Globals)
    (hT : env0.gettime ≠ 100000) (hlt : env0.gettime < env.gettime)
    (ht : env.gettime < 4294967296)
    (hw : env.gettime - env0.gettime + 100000 < 4294967296)
    (hf : env.failsafe ≠ 0)
    (hl : g.pwm_failsafe_time = (pwm_init env0 g0).pwm_failsafe_time) :
    pwm_set_value cfg env pwm g = 0 := by
  have hL : g.pwm_failsafe_time = elapsed env0.gettime 100000 := hl
  unfold pwm_set_value
  simp only [if_pos hf]
  have h0 : ¬ g.pwm_failsafe_time = 0 := by
    rw [hL]
    unfold elapsed
    omega
  have h1 : elapsed env.gettime g.pwm_failsafe_time > 100000 := by
    rw [hL]
    unfold elapsed
    omega
  rw [if_neg h0, if_pos h1]

theorem pwm_map_range (cfg : Config) (pwmdir : Int) (pwm : F32)
    (hb : cfg.BIDIRECTIONAL = true) :
    pwm_map cfg pwmdir (pwm_clamp pwm) = 0 ∨
      (88 ≤ pwm_map cfg pwmdir (pwm_clamp pwm) ∧ pwm_map cfg pwmdir (pwm_clamp pwm) ≤ 2047) := by
  have hle := scaled_clamp_le pwm
  by_cases hd : pwmdir = cfg.FORWARD
  · rw [pwm_map_forward cfg _ pwm hb hd]
    right
    omega
  · by_cases hr : pwmdir = cfg.REVERSE
    · rw [pwm_map_reverse cfg _ pwm hb hd hr]
      right
      omega
    · left
      unfold pwm_map
      rw [if_pos hb, if_neg hd, if_neg hr]

theorem pwm_set_value_cases (cfg : Config) (env : Env) (pwm : F32) (g : Globals) :
    pwm_set_value cfg env pwm g = 0 ∨
      pwm_set_value cfg env pwm g = pwm_map cfg g.pwmdir (pwm_clamp pwm) := by
  unfold pwm_set_value
  simp only
  split_ifs <;> simp

/-- Claim C19: in bidirectional mode, for every throttle input, direction value,
on-ground flag, failsafe flag, latch value and clock time, the value `pwm_set` passes to
`make_packet` is 0 or lies in 88..2047; it is never in the command range 1..47 and fits
11 bits, so the frame loses no bit to the 16-bit truncation and decodes to the value. -/
theorem pwm_set_value_range (cfg : Config) (env : Env) (pwm : F32) (g : Globals)
    (hb : cfg.BIDIRECTIONAL = true) :
    (pwm_set_value cfg env pwm g = 0 ∨
      (88 ≤ pwm_set_value cfg env pwm g ∧ pwm_set_value cfg env pwm g ≤ 2047)) ∧
    ¬ (1 ≤ pwm_set_value cfg env pwm g ∧ pwm_set_value cfg env pwm g ≤ 47) ∧
    pwm_set_value cfg env pwm g < 2 ^ 11 ∧
    make_packet_frame (pwm_set_value cfg env pwm g) false =
      spec_frame (pwm_set_value cfg env pwm g) false ∧
    make_packet_frame (pwm_set_value cfg env pwm g) false >>> 5 =
      pwm_set_value cfg env pwm g := by
  have hr : pwm_set_value cfg env pwm g = 0 ∨
      (88 ≤ pwm_set_value cfg env pwm g ∧ pwm_set_value cfg env pwm g ≤ 2047) := by
    rcases pwm_set_value_cases cfg env pwm g with h | h
    · exact Or.inl h
    · rw [h]
      exact pwm_map_range cfg g.pwmdir pwm hb
  have hv : pwm_set_value cfg env pwm g ≤ 2047 := by omega
  have e : 64 * (pwm_set_value cfg env pwm g / 64) + pwm_set_value cfg env pwm g % 64 =
      pwm_set_value cfg env pwm g := by omega
  have h1 := frame_spec_split (pwm_set_value cfg env pwm g / 64) (by omega)
    (pwm_set_value cfg env pwm g % 64) (by omega) false
  have h2 := (frame_decode_split (pwm_set_value cfg env pwm g / 64) (by omega)
    (pwm_set_value cfg env pwm g % 64) (by omega) false).1
  rw [e] at h1 h2
  refine ⟨hr, by omega, by norm_num; omega, h1, h2⟩

theorem pwm_set_value_range_witness :
    pwm_set_value ⟨true, false, 0, 1⟩ ⟨1, 0, 150000⟩ (F32.ofBits false 0x3F000000)
        { initial_globals with pwmdir := 1 } = 0 ∨
      (88 ≤ pwm_set_value ⟨true, false, 0, 1⟩ ⟨1, 0, 150000⟩ (F32.ofBits false 0x3F000000)
          { initial_globals with pwmdir := 1 } ∧
        pwm_set_value ⟨true, false, 0, 1⟩ ⟨1, 0, 150000⟩ (F32.ofBits false 0x3F000000)
          { initial_globals with pwmdir := 1 } ≤ 2047) :=
  (pwm_set_value_range ⟨true, false, 0, 1⟩ ⟨1, 0, 150000⟩ (F32.ofBits false 0x3F000000)
    { initial_globals with pwmdir := 1 } rfl).1

theorem or_mod_256 (a b : Nat) : ((a % 256) ||| b) % 256 = (a % 256) ||| (b % 256) := by
  apply Nat.eq_of_testBit_eq
  intro i
  have h256 : (256 : Nat) = 2 ^ 8 := by norm_num
  rw [h256]
  simp only [Nat.testBit_mod_two_pow, Nat.testBit_or]
  cases decide (i < 8) <;> simp

theorem list_ext_getD (l1 l2 : List Nat) (hlen : l1.length = l2.length)
    (h : ∀ j, j < l1.length → l1.getD j 0 = l2.getD j 0) : l1 = l2 := by
  apply List.ext_getElem hlen
  intro j h1 h2
  have := h j h1
  rw [List.getD_eq_getElem _ _ h1, List.getD_eq_getElem _ _ h2] at this
  exact this

theorem pulse_bit_or (f1 f2 j : Nat) :
    pulse_bit (f1 ||| f2) j = (pulse_bit f1 j || pulse_bit f2 j) := by
  unfold pulse_bit
  rw [Nat.testBit_or]
  cases decide (j % 4 = 0) <;> cases decide (j % 4 ≠ 3) <;>
    cases f1.testBit (15 - j / 4) <;> cases f2.testBit (15 - j / 4) <;> rfl

theorem make_packet_twice_getD (n v1 v2 : Nat) (t1 t2 : Bool) (j : Nat) (hj : j < 64) :
    (make_packet n v2 t2 (make_packet n v1 t1 (List.replicate 64 0))).getD j 0 =
      (make_packet n v1 t1 (List.replicate 64 0)).getD j 0 |||
        (make_packet n v2 t2 (List.replicate 64 0)).getD j 0 := by
  have hl : j < (List.replicate 64 (0 : Nat)).length := by
    rw [List.length_replicate]; exact hj
  have hl1 : j < (make_packet n v1 t1 (List.replicate 64 0)).length := by
    rw [make_packet_length]; exact hl
  rw [make_packet_getD n v2 t2 _ j, if_pos ⟨hj, hl1⟩, make_packet_getD n v1 t1 _ j,
    if_pos ⟨hj, hl⟩, make_packet_getD n v2 t2 _ j, if_pos ⟨hj, hl⟩, getD_replicate_zero,
    or_mod_256, Nat.zero_or, Nat.zero_or]

theorem make_packet_twice_levels (cfg : Config) (n v1 v2 : Nat) (t1 t2 : Bool) (hn : n < 4) :
    pin_levels Port.GPIOA (channel_pin n)
        (bitbang_data cfg (make_packet n v2 t2 (make_packet n v1 t1 (List.replicate 64 0)))).2 =
      render (make_packet_frame v1 t1 ||| make_packet_frame v2 t2) := by
  have hbit : ∀ s, s < 64 →
      ((make_packet n v2 t2 (make_packet n v1 t1 (List.replicate 64 0))).getD s 0).testBit n =
        pulse_bit (make_packet_frame v1 t1 ||| make_packet_frame v2 t2) s := by
    intro s hs
    have hl : s < (List.replicate 64 (0 : Nat)).length := by
      rw [List.length_replicate]; exact hs
    have hl1 : s < (make_packet n v1 t1 (List.replicate 64 0)).length := by
      rw [make_packet_length]; exact hl
    rw [make_packet_testBit n v2 t2 _ s n hs hl1 (by omega),
      make_packet_testBit n v1 t1 _ s n hs hl (by omega), getD_replicate_zero, pulse_bit_or]
    simp
  obtain ⟨h0, h1, h2, h3⟩ := pin_levels_bitbang cfg
    (make_packet n v2 t2 (make_packet n v1 t1 (List.replicate 64 0)))
  rw [← map_pulse_bit_eq_render]
  have hn4 : n = 0 ∨ n = 1 ∨ n = 2 ∨ n = 3 := by omega
  rcases hn4 with h | h | h | h <;> subst h
  · rw [show channel_pin 0 = 1 from rfl, h0]
    exact List.map_congr_left (fun s hs => hbit s (List.mem_range.1 hs))
  · rw [show channel_pin 1 = 3 from rfl, h1]
    exact List.map_congr_left (fun s hs => hbit s (List.mem_range.1 hs))
  · rw [show channel_pin 2 = 10 from rfl, h2]
    exact List.map_congr_left (fun s hs => hbit s (List.mem_range.1 hs))
  · rw [show channel_pin 3 = 8 from rfl, h3]
    exact List.map_congr_left (fun s hs => hbit s (List.mem_range.1 hs))

/-- Claim C20: `make_packet` only ORs bits into the timeline and clears none: for every
channel `n` and two (value, telemetry) pairs, encoding both on channel `n` into the all-zero
timeline with no transmit in between leaves in every slot the bitwise OR of the two
individual renderings, so the pattern then transmitted on channel `n` is the rendering of
`frame1 | frame2`, not of the second frame; encoding the same pair twice equals encoding it
once. -/
theorem make_packet_accumulates (cfg : Config) (n v1 v2 : Nat) (t1 t2 : Bool) (hn : n < 4) :
    (∀ (md : List Nat) (j b : Nat), j < 64 → j < md.length → b < 8 →
      (md.getD j 0).testBit b = true →
      ((make_packet n v1 t1 md).getD j 0).testBit b = true) ∧
    make_packet n v2 t2 (make_packet n v1 t1 (List.replicate 64 0)) =
      List.zipWith (fun a b => a ||| b) (make_packet n v1 t1 (List.replicate 64 0))
        (make_packet n v2 t2 (List.replicate 64 0)) ∧
    pin_levels Port.GPIOA (channel_pin n)
        (bitbang_data cfg (make_packet n v2 t2 (make_packet n v1 t1 (List.replicate 64 0)))).2 =
      render (make_packet_frame v1 t1 ||| make_packet_frame v2 t2) ∧
    make_packet n v1 t1 (make_packet n v1 t1 (List.replicate 64 0)) =
      make_packet n v1 t1 (List.replicate 64 0) ∧
    render (make_packet_frame 2047 true ||| make_packet_frame 0 false) ≠
      render (make_packet_frame 0 false) := by
  refine ⟨?_, ?_, make_packet_twice_levels cfg n v1 v2 t1 t2 hn, ?_, by decide⟩
  · intro md j b hj hl hb h
    rw [make_packet_testBit n v1 t1 md j b hj hl hb, h]
    rfl
  · apply list_ext_getD
    · simp only [make_packet_length, List.length_zipWith, List.length_replicate]
      rfl
    · intro j hj
      have hj64 : j < 64 := by
        simpa only [make_packet_length, List.length_replicate] using hj
      have hl1 : j < (make_packet n v1 t1 (List.replicate 64 0)).length := by
        rw [make_packet_length, List.length_replicate]; exact hj64
      have hl2 : j < (make_packet n v2 t2 (List.replicate 64 0)).length := by
        rw [make_packet_length, List.length_replicate]; exact hj64
      have hz : j < (List.zipWith (fun a b => a ||| b)
          (make_packet n v1 t1 (List.replicate 64 0))
          (make_packet n v2 t2 (List.replicate 64 0))).length := by
        simp only [List.length_zipWith, make_packet_length, List.length_replicate]
        omega
      rw [make_packet_twice_getD n v1 v2 t1 t2 j hj64, List.getD_eq_getElem _ _ hz,
        List.getElem_zipWith, List.getD_eq_getElem _ _ hl1, List.getD_eq_getElem _ _ hl2]
  · apply list_ext_getD
    · simp only [make_packet_length]
    · intro j hj
      have hj64 : j < 64 := by
        simpa only [make_packet_length, List.length_replicate] using hj
      rw [make_packet_twice_getD n v1 v1 t1 t1 j hj64, Nat.or_self]

theorem make_packet_accumulates_witness :
    make_packet 2 100 false (make_packet 2 100 false (List.replicate 64 0)) =
      make_packet 2 100 false (List.replicate 64 0) :=
  (make_packet_accumulates ⟨true, false, 0, 1⟩ 2 100 200 false true (by decide)).2.2.2.1

/-- The events of a slot as far as they can be counted: the trailing delay is 7 `__NOP()`s
with `DSHOT300` and 47 with `DSHOT150`; a `gpioset` follows one `__NOP()` and a
`gpioreset` two, so a slot whose four bits are all set produces 15 events with `DSHOT300`
and a slot whose four bits are all clear produces 19. -/
theorem slot_events_counts :
    (slot_delay false).length = 7 ∧ (slot_delay true).length = 47 ∧
    (∀ data mask pin : Nat, pin_block data mask pin = [Event.nop, Event.gpioset Port.GPIOA pin] ∨
      pin_block data mask pin = [Event.nop, Event.nop, Event.gpioreset Port.GPIOA pin]) ∧
    (slot_events false 15).length = 15 ∧ (slot_events false 0).length = 19 := by
  refine ⟨by decide, by decide, ?_, by decide, by decide⟩
  intro data mask pin
  unfold pin_block
  split
  · exact Or.inl rfl
  · exact Or.inr rfl

end DShot
